import Mathlib

/-!
# Verification of the `watchr` core against its specification

Shallow embedding of the parts of `watchr` (a Go terminal UI for running a
shell command and browsing its output) that the specification's claims are
about:

* the ANSI-aware text layout helpers `truncateToWidth` and `wrapText`
  (`internal/ui/ui.go`),
* the viewport state machine (`model`, `Update`, `handleKeyPress`,
  `moveCursor`, `adjustOffset`, `updateFiltered` in `internal/ui/ui.go`),
* the one-shot process runner `Run` (`internal/runner/runner.go`),
* the streaming merge buffer filled by two concurrent pipe readers
  (`RunStreaming` / `readPipe` in `internal/runner/runner.go`), modelled as
  an explicit interleaving transition system.

Strings are modelled as Lean `String`s / `List Char` (Go iterates runes);
Go `int`s that can be negative (cursor, offset, widths, heights) are
modelled as `Int`, with `Int.tdiv` for Go's truncated integer division.
-/

namespace Watchr

/-! ## Character/visual width model

`lipgloss.Width` measures the display width of a string after stripping
ANSI escape sequences; applied to a single rune it yields that rune's
display width (0 for control characters such as ESC, 2 for wide CJK
characters, 1 otherwise).  We model the rune-width table with a small
representative classification: control characters are zero-width, the CJK
Unified Ideographs block is double-width, everything else is single-width.
-/

/-- Display width of a single rune, modelling `lipgloss.Width(string(r))`. -/
def charWidth (c : Char) : Nat :=
  if c.toNat < 0x20 ∨ c.toNat = 0x7f then 0
  else if 0x4E00 ≤ c.toNat ∧ c.toNat ≤ 0x9FFF then 2
  else 1

/-- `isAnsiTerminator` from `ui.go`: a letter ends an ANSI escape sequence. -/
def isAnsiTerminator (c : Char) : Bool :=
  ('A' ≤ c ∧ c ≤ 'Z') ∨ ('a' ≤ c ∧ c ≤ 'z')

/-- The ESC character that starts an ANSI escape sequence. -/
def escChar : Char := Char.ofNat 0x1b

mutual

/-- Strip ANSI escape sequences (ESC up to and including a letter
terminator) from a rune list, modelling the ANSI-stripping that
`lipgloss.Width` performs before measuring. -/
def stripAnsi : List Char → List Char
  | [] => []
  | c :: rest => if c = escChar then stripAnsiInSeq rest else c :: stripAnsi rest

/-- Skip the remainder of an escape sequence, up to and including the
letter terminator. -/
def stripAnsiInSeq : List Char → List Char
  | [] => []
  | c :: rest => if isAnsiTerminator c then stripAnsi rest else stripAnsiInSeq rest

end

/-- Sum of rune widths of a rune list (no ANSI stripping). -/
def sumWidth (l : List Char) : Nat := (l.map charWidth).sum

/-- Visual width of a string, modelling `lipgloss.Width`: strip ANSI
escape sequences, then sum the rune widths. -/
def visualWidth (l : List Char) : Nat := sumWidth (stripAnsi l)

/-- The one-column ellipsis marker appended by truncation (`ui.go`). -/
def ellipsisChar : Char := '…'

/-! ## `truncateToWidth` (`internal/ui/ui.go`, lines 446-472) -/

/-- The rune-by-rune truncation loop of `truncateToWidth`: accumulate
runes while the running width stays within `targetWidth`, stop (Go
`break`) at the first rune that would exceed it. -/
def truncLoop (targetWidth : Int) : List Char → Nat → List Char
  | [], _ => []
  | c :: rest, currentWidth =>
    if ((currentWidth + charWidth c : Nat) : Int) > targetWidth then []
    else c :: truncLoop targetWidth rest (currentWidth + charWidth c)

/-- `truncateToWidth` from `ui.go`: return the string unchanged if its
visual width fits in `maxWidth`; otherwise keep runes while they fit in
`maxWidth - 1` columns and append the ellipsis. -/
def truncateToWidth (s : List Char) (maxWidth : Int) : List Char :=
  if maxWidth ≤ 0 then []
  else if (visualWidth s : Int) ≤ maxWidth then s
  else
    let targetWidth := maxWidth - 1
    if targetWidth ≤ 0 then [ellipsisChar]
    else truncLoop targetWidth s 0 ++ [ellipsisChar]

/-! ## `wrapText` (`internal/ui/ui.go`, lines 475-505) -/

/-- The greedy wrapping loop of `wrapText`: `cl`/`cw` are Go's
`currentLine`/`currentWidth`; a rune that would exceed `width` flushes the
current line and starts a new one containing that rune. -/
def wrapLoop (width : Int) (cl : List Char) (cw : Nat) : List Char → List (List Char)
  | [] => if cl.isEmpty then [] else [cl]
  | c :: rest =>
    if ((cw + charWidth c : Nat) : Int) > width then
      cl :: wrapLoop width [c] (charWidth c) rest
    else
      wrapLoop width (cl ++ [c]) (cw + charWidth c) rest

/-- `wrapText` from `ui.go`: nil for non-positive width, a single empty
line for empty input, otherwise the greedy wrapping loop. -/
def wrapText (s : List Char) (width : Int) : List (List Char) :=
  if width ≤ 0 then []
  else if s.isEmpty then [[]]
  else wrapLoop width [] 0 s

/-! ## Lines and sanitization (`internal/runner/runner.go`) -/

/-- `Line` from `runner.go`: a 1-based line number and the (sanitized)
content.  Go stores the number as `int`; it is always positive, so we use
`Nat`. -/
structure Line where
  Number : Nat
  Content : String
  deriving DecidableEq, Repr

/-- Default line used with `List.getD`. -/
def dLine : Line := ⟨0, ""⟩

/-- `sanitizeLine` from `runner.go`: strip carriage returns and expand
tabs to eight spaces; everything else (including SGR escapes) is kept
verbatim. -/
def sanitizeLine (s : String) : String :=
  ⟨(s.data.filter (fun c => c ≠ '\r')).flatMap
    (fun c => if c = '\t' then List.replicate 8 ' ' else [c])⟩

/-! ## One-shot `Run` (`internal/runner/runner.go`, lines 367-418)

`Run` spawns the shell, creates the stdout/stderr pipes, reads stdout to
completion, then stderr, numbering lines with a single counter, then waits
for the child.  The external effects (pipe creation, start, the two data
streams, the `Wait` outcome) are an oracle `RunEnv`; `runnerRun` is the
control flow of the Go function over that oracle. -/

/-- The environment/oracle a one-shot `Run` call interacts with.
`waitErr = none` models `cmd.Wait()` returning nil; `some none` a non
`ExitError` failure; `some (some c)` an `*exec.ExitError` with exit code
`c`. -/
structure RunEnv where
  stdoutPipeErr : Option String
  stderrPipeErr : Option String
  startErr : Option String
  stdoutLines : List String
  stderrLines : List String
  waitErr : Option (Option Int)

/-- `Result` from `runner.go`. -/
structure RunResult where
  Lines : List Line
  ExitCode : Int
  deriving DecidableEq

/-- The scanner loop of `Run`: number the lines of one stream starting at
`start`, sanitizing each. -/
def numberLines (start : Nat) : List String → List Line
  | [] => []
  | s :: rest => ⟨start, sanitizeLine s⟩ :: numberLines (start + 1) rest

/-- Exit-code capture of `Run`: `exitCode` stays 0 unless `Wait` failed
with an `ExitError`, whose code is recorded. -/
def runExitCode : Option (Option Int) → Int
  | none => 0
  | some none => 0
  | some (some c) => c

/-- `Run` from `runner.go`: fail on pipe creation or start failure,
otherwise read all of stdout, then all of stderr, with one shared line
counter starting at 1, and capture the exit code. -/
def runnerRun (env : RunEnv) : Except String RunResult :=
  match env.stdoutPipeErr with
  | some e => .error ("failed to create stdout pipe: " ++ e)
  | none =>
    match env.stderrPipeErr with
    | some e => .error ("failed to create stderr pipe: " ++ e)
    | none =>
      match env.startErr with
      | some e => .error ("failed to start command: " ++ e)
      | none =>
        let stdoutNumbered := numberLines 1 env.stdoutLines
        let stderrNumbered := numberLines (env.stdoutLines.length + 1) env.stderrLines
        .ok { Lines := stdoutNumbered ++ stderrNumbered
              ExitCode := runExitCode env.waitErr }

/-! ## Streaming merge buffer (`internal/runner/runner.go`, lines 471-575)

`RunStreaming` seeds the buffer with a copy of the previous run's lines and
spawns two goroutines (stdout and stderr readers) running `readPipe`.  For
each scanned line, `readPipe` performs TWO separately-locked critical
sections: first, under `lineNumMu`, it takes the next line number from the
shared counter; second, under `result.mu`, it overwrites index `n-1` in
place if it exists, appends otherwise, and bumps `CurrentLineCount`.
Between the two sections the other reader can interleave.  We model each
reader as a process with a queue of pending raw lines and an optional
taken-but-not-yet-inserted line, and reachability as interleavings of the
two atomic sections. -/

/-- One reader goroutine of `RunStreaming`: the raw lines it still has to
scan, and the line (number and raw text) for which it holds a number from
the counter but has not yet run the buffer-insertion critical section. -/
structure Reader where
  pending : List String
  taken : Option (Nat × String)
  deriving DecidableEq, Repr

/-- The shared, mutex-guarded part of `StreamingResult`: the line slice
and `CurrentLineCount`. -/
structure SBuf where
  lines : List Line
  currentLineCount : Nat
  deriving DecidableEq, Repr

/-- The state of one in-progress `RunStreaming` call: the shared buffer,
the shared `lineNum` counter, and the two reader goroutines. -/
structure SState where
  buf : SBuf
  counter : Nat
  rA : Reader
  rB : Reader
  deriving DecidableEq, Repr

/-- Which of the two readers acts. -/
inductive Tag | A | B
  deriving DecidableEq, Repr

/-- Project the acting reader. -/
def SState.reader (s : SState) : Tag → Reader
  | .A => s.rA
  | .B => s.rB

/-- Replace the acting reader. -/
def SState.setReader (s : SState) : Tag → Reader → SState
  | .A, r => { s with rA := r }
  | .B, r => { s with rB := r }

/-- Initial state of `RunStreaming`: the buffer is seeded with a copy of
the previous run's lines, `lineNum` starts at 1, `CurrentLineCount` at 0,
and the readers hold their streams' raw lines. -/
def initSState (prev : List Line) (outLines errLines : List String) : SState :=
  { buf := { lines := prev, currentLineCount := 0 }
    counter := 1
    rA := { pending := outLines, taken := none }
    rB := { pending := errLines, taken := none } }

/-- The `result.mu` critical section of `readPipe`: build the sanitized
`Line`, overwrite index `n-1` in place if it exists, append otherwise, and
track the largest line number written as `CurrentLineCount`. -/
def insertLine (b : SBuf) (n : Nat) (raw : String) : SBuf :=
  let newLine : Line := ⟨n, sanitizeLine raw⟩
  { lines :=
      if n - 1 < b.lines.length then b.lines.set (n - 1) newLine
      else b.lines ++ [newLine]
    currentLineCount := if n > b.currentLineCount then n else b.currentLineCount }

/-- The state after a reader runs the `lineNumMu` critical section:
it takes the current counter value for its scanned line and increments
the counter. -/
def takeState (s : SState) (t : Tag) (str : String) (rest : List String) : SState :=
  { s.setReader t { pending := rest, taken := some (s.counter, str) } with
      counter := s.counter + 1 }

/-- The state after a reader runs the `result.mu` critical section:
its taken line is inserted into the buffer. -/
def insertState (s : SState) (t : Tag) (n : Nat) (str : String) : SState :=
  { s.setReader t { pending := (s.reader t).pending, taken := none } with
      buf := insertLine s.buf n str }

/-- One atomic step of the interleaved execution: a reader either takes
the next number from the counter (the `lineNumMu` section) or inserts a
previously taken line into the buffer (the `result.mu` section). -/
inductive SStep : SState → SState → Prop
  | take (t : Tag) (s : SState) (str : String) (rest : List String)
      (hp : (s.reader t).pending = str :: rest)
      (ht : (s.reader t).taken = none) :
      SStep s (takeState s t str rest)
  | insert (t : Tag) (s : SState) (n : Nat) (str : String)
      (ht : (s.reader t).taken = some (n, str)) :
      SStep s (insertState s t n str)

/-- Reachability from a given initial state by interleaved reader steps. -/
inductive SReach (init : SState) : SState → Prop
  | refl : SReach init init
  | step {s s' : SState} : SReach init s → SStep s s' → SReach init s'

/-- A state in which both readers have exhausted their streams and hold no
pending insertion: the run is about to report `done`. -/
def SState.final (s : SState) : Prop :=
  s.rA.pending = [] ∧ s.rA.taken = none ∧ s.rB.pending = [] ∧ s.rB.taken = none

/-! ## Viewport state machine (`internal/ui/ui.go`)

The `model` struct and its event handlers, as a pure reducer
`update : Model → Msg → Model` (the returned `tea.Cmd`s — timers, process
starts, quit — are effects outside the state and are dropped).  The
streaming poll tick carries the snapshot data the handler reads from the
shared `StreamingResult` (`GetLines`, `IsDone`, `ExitCode`, `Error`,
`GetCurrentLineCount`); a `none` snapshot models `m.streamResult == nil`. -/

/-- `PreviewPosition` from `ui.go`. -/
inductive PreviewPos | bottom | top | left | right
  deriving DecidableEq, Repr

/-- The `ui.Config` fields the state transitions read. -/
structure UIConfig where
  PreviewSize : Int
  PreviewSizeIsPercent : Bool
  PreviewPosition : PreviewPos
  RefreshInterval : Int
  deriving DecidableEq, Repr

/-- The `model` struct fields mutated or read by the event handlers
(render-only fields and the process handles are omitted). -/
structure Model where
  config : UIConfig
  lines : List Line
  filtered : List Nat
  cursor : Int
  offset : Int
  filter : String
  filterMode : Bool
  showPreview : Bool
  showHelp : Bool
  width : Int
  height : Int
  loading : Bool
  streaming : Bool
  lastLineCount : Nat
  userScrolled : Bool
  spinnerFrame : Nat
  errorMsg : String
  statusMsg : String
  exitCode : Int
  deriving DecidableEq, Repr

/-- `previewSize` from `ui.go`: a percentage of the width (left/right) or
height (top/bottom), with Go's truncated integer division, or an absolute
count. -/
def Model.previewSize (m : Model) : Int :=
  if m.config.PreviewSizeIsPercent then
    if m.config.PreviewPosition = .left ∨ m.config.PreviewPosition = .right then
      Int.tdiv (m.width * m.config.PreviewSize) 100
    else
      Int.tdiv (m.height * m.config.PreviewSize) 100
  else m.config.PreviewSize

/-- `visibleLines` from `ui.go`: terminal height minus the five chrome
rows, minus the preview pane and its separator when shown top/bottom. -/
def Model.visibleLines (m : Model) : Int :=
  if m.showPreview ∧
      (m.config.PreviewPosition = .top ∨ m.config.PreviewPosition = .bottom) then
    m.height - 5 - m.previewSize - 1
  else
    m.height - 5

/-- Character-level model of Go's `strings.ToLower`. -/
def goToLower (s : String) : String := ⟨s.data.map Char.toLower⟩

/-- `listIsPrefixOf sub l` is true when `sub` is a prefix of `l`. -/
def listIsPrefixOf : List Char → List Char → Bool
  | [], _ => true
  | _ :: _, [] => false
  | a :: as, b :: bs => a = b && listIsPrefixOf as bs

/-- `listIsInfixOf sub l` is true when `sub` occurs contiguously in `l`. -/
def listIsInfixOf (sub : List Char) : List Char → Bool
  | [] => listIsPrefixOf sub []
  | l@(_ :: rest) => listIsPrefixOf sub l || listIsInfixOf sub rest

/-- Model of Go's `strings.Contains s sub`. -/
def goContains (s sub : String) : Bool := listIsInfixOf sub.data s.data

/-- The filtering loop of `updateFiltered` (`ui.go`, lines 507-514): walk
the lines with their indices and keep the index of every line whose
lower-cased content contains the lower-cased filter (every index when the
filter is empty).  `k` is the index of the first line of `ls`. -/
def filteredIndicesFrom (filter : String) (k : Nat) : List Line → List Nat
  | [] => []
  | l :: rest =>
    if filter = "" || goContains (goToLower l.Content) (goToLower filter) then
      k :: filteredIndicesFrom filter (k + 1) rest
    else
      filteredIndicesFrom filter (k + 1) rest

/-- The recomputed `m.filtered` of `updateFiltered`. -/
def updateFilteredList (lines : List Line) (filter : String) : List Nat :=
  filteredIndicesFrom filter 0 lines

/-- `updateFiltered` from `ui.go` (lines 507-534): recompute `filtered`,
clamp the cursor back into range, and clamp the offset to the valid bound
when the visible-row count is positive. -/
def Model.updateFiltered (m : Model) : Model :=
  let filtered := updateFilteredList m.lines m.filter
  let cursor :=
    if m.cursor ≥ (filtered.length : Int) then (filtered.length : Int) - 1 else m.cursor
  let cursor := if cursor < 0 then 0 else cursor
  let visible := m.visibleLines
  let offset :=
    if visible > 0 then
      let maxOffset := max ((filtered.length : Int) - visible) 0
      if m.offset > maxOffset then maxOffset else m.offset
    else m.offset
  { m with filtered := filtered, cursor := cursor, offset := offset }

/-- `adjustOffset` from `ui.go` (lines 405-420): when the visible-row
count is positive, center the cursor, clamped into
`[0, max(len(filtered) - visible, 0)]`; otherwise leave the offset. -/
def Model.adjustOffset (m : Model) : Model :=
  let visible := m.visibleLines
  if visible ≤ 0 then m
  else
    let idealOffset := m.cursor - Int.tdiv visible 2
    let idealOffset := max idealOffset 0
    let maxOffset := max ((m.filtered.length : Int) - visible) 0
    let idealOffset := min idealOffset maxOffset
    { m with offset := idealOffset }

/-- `moveCursor` from `ui.go` (lines 391-403): shift the cursor, clamp it
into range (to 0 when the filtered list is empty), then adjust the
offset. -/
def Model.moveCursor (m : Model) (delta : Int) : Model :=
  let cursor := m.cursor + delta
  let cursor := if cursor < 0 then 0 else cursor
  let cursor :=
    if cursor ≥ (m.filtered.length : Int) then (m.filtered.length : Int) - 1 else cursor
  let cursor := if cursor < 0 then 0 else cursor
  Model.adjustOffset { m with cursor := cursor }

/-- `startStreaming` from `ui.go` (lines 153-170), minus the effects
(context swap, `RunStreaming` call, tick command). -/
def Model.startStreaming (m : Model) : Model :=
  { m with streaming := true, loading := true, lastLineCount := m.lines.length,
           exitCode := -1, errorMsg := "", userScrolled := false }

/-- A key event, mirroring `tea.KeyMsg` as the handlers use it: the
special types switched on in filter mode (`KeyEsc`, `KeyEnter`,
`KeyBackspace`, `KeyRunes`), plus named non-rune keys (`"ctrl+c"`,
`"down"`, ...) which only matter through `msg.String()`.  `yank` is the
normal-mode `y` press together with the clipboard call's outcome. -/
inductive KeyMsg
  | esc | enter | backspace
  | runes (s : String)
  | special (name : String)
  | yank (copyOk : Bool)
  deriving DecidableEq, Repr

/-- `msg.String()` for our key events. -/
def KeyMsg.str : KeyMsg → String
  | .esc => "esc"
  | .enter => "enter"
  | .backspace => "backspace"
  | .runes s => s
  | .special n => n
  | .yank _ => "y"

/-- The streaming snapshot a poll tick reads from the `StreamingResult`
(`GetLines`, `IsDone`, `ExitCode`, `Error`, `GetCurrentLineCount`). -/
structure StreamSnap where
  lines : List Line
  done : Bool
  exitCode : Int
  error : Option String
  currentLineCount : Nat
  deriving DecidableEq, Repr

/-- The message union handled by `Update` in `ui.go`.  `streamTick none`
models a tick with `m.streamResult == nil`. -/
inductive Msg
  | key (k : KeyMsg)
  | resize (w h : Int)
  | startStream
  | result (lines : List Line) (exitCode : Int)
  | streamTick (snap : Option StreamSnap)
  | timerTick
  | err (e : String)
  | clearStatus
  | spinnerTick
  deriving DecidableEq, Repr

/-- Drop the last byte of the filter (`m.filter[:len-1]` in Go), modelled
at rune granularity. -/
def dropLastChar (s : String) : String := ⟨s.data.dropLast⟩

/-- `handleKeyPress` from `ui.go` (lines 279-389).  Help mode swallows
every key (a few close the overlay); filter mode edits the filter; normal
mode dispatches on `msg.String()`.  Quitting leaves the state unchanged
(the quit command is an effect). -/
def Model.handleKeyPress (m : Model) (k : KeyMsg) : Model :=
  if m.showHelp then
    if k.str = "?" ∨ k.str = "esc" ∨ k.str = "q" ∨ k.str = "enter" then
      { m with showHelp := false }
    else m
  else if m.filterMode then
    match k with
    | .esc => Model.updateFiltered { m with filterMode := false, filter := "" }
    | .enter => { m with filterMode := false }
    | .backspace =>
      if m.filter.length > 0 then
        Model.updateFiltered { m with filter := dropLastChar m.filter }
      else m
    | .runes s => Model.updateFiltered { m with filter := m.filter ++ s }
    | _ => m
  else
    let ks := k.str
    if ks = "q" ∨ ks = "ctrl+c" then m
    else if ks = "esc" then
      if m.filter ≠ "" then Model.updateFiltered { m with filter := "" } else m
    else if ks = "j" ∨ ks = "down" ∨ ks = "ctrl+n" then
      Model.moveCursor { m with userScrolled := true } 1
    else if ks = "k" ∨ ks = "up" ∨ ks = "ctrl+p" then
      Model.moveCursor { m with userScrolled := true } (-1)
    else if ks = "g" ∨ ks = "home" then
      { m with userScrolled := true, cursor := 0, offset := 0 }
    else if ks = "G" ∨ ks = "end" then
      let m := { m with userScrolled := false }
      if 0 < m.filtered.length then
        Model.adjustOffset { m with cursor := (m.filtered.length : Int) - 1 }
      else m
    else if ks = "ctrl+d" then
      Model.moveCursor { m with userScrolled := true } (Int.tdiv m.visibleLines 2)
    else if ks = "ctrl+u" then
      Model.moveCursor { m with userScrolled := true } (-(Int.tdiv m.visibleLines 2))
    else if ks = "pgdown" ∨ ks = "ctrl+f" then
      Model.moveCursor { m with userScrolled := true } m.visibleLines
    else if ks = "pgup" ∨ ks = "ctrl+b" then
      Model.moveCursor { m with userScrolled := true } (-m.visibleLines)
    else if ks = "p" then
      Model.adjustOffset { m with showPreview := !m.showPreview }
    else if ks = "r" ∨ ks = "ctrl+r" then
      m.startStreaming
    else if ks = "/" then
      { m with filterMode := true, filter := "" }
    else if ks = "?" then
      { m with showHelp := true }
    else if ks = "y" then
      match k with
      | .yank copyOk =>
        if 0 < m.filtered.length ∧ 0 ≤ m.cursor ∧ m.cursor < (m.filtered.length : Int) then
          if m.filtered.getD m.cursor.toNat 0 < m.lines.length then
            { m with statusMsg := if copyOk then "Copied to clipboard" else "Failed to copy" }
          else m
        else m
      | _ => m
    else m

/-- The first block of the `streamTickMsg` branch of `Update` (`ui.go`,
lines 199-216): when the snapshot's line count changed, replace the lines,
recompute the filter, and auto-follow the tail unless the user scrolled. -/
def Model.streamTickCount (m : Model) (snap : StreamSnap) : Model :=
  if snap.lines.length ≠ m.lastLineCount then
    let m' := Model.updateFiltered
      { m with lines := snap.lines, lastLineCount := snap.lines.length }
    if !m'.userScrolled then
      let visible := m'.visibleLines
      if visible > 0 then
        { m' with cursor := max ((m'.filtered.length : Int) - 1) 0,
                  offset := max ((m'.filtered.length : Int) - visible) 0 }
      else m'
    else m'
  else m

/-- The `streamTickMsg` branch of `Update` (`ui.go`, lines 194-242): the
count-update block, then on completion record the exit status and trim
lines left over from a longer previous run. -/
def Model.streamTick (m : Model) (snap : StreamSnap) : Model :=
  let m1 := m.streamTickCount snap
  if snap.done then
    let m2 := { m1 with streaming := false, loading := false, exitCode := snap.exitCode,
                        errorMsg := match snap.error with
                          | some e => e
                          | none => m1.errorMsg }
    if snap.currentLineCount < m2.lines.length then
      Model.updateFiltered { m2 with lines := m2.lines.take snap.currentLineCount }
    else m2
  else m1

/-- `Update` from `ui.go` (lines 172-271), as a pure reducer over `Msg`
(commands dropped). -/
def Model.update (m : Model) : Msg → Model
  | .key k => m.handleKeyPress k
  | .resize w h => { m with width := w, height := h }
  | .startStream => m.startStreaming
  | .result lines exitCode =>
    Model.updateFiltered { m with lines := lines, exitCode := exitCode,
                                  loading := false, streaming := false }
  | .streamTick none => m
  | .streamTick (some snap) => m.streamTick snap
  | .timerTick =>
    if m.config.RefreshInterval > 0 ∧ ¬m.streaming then m.startStreaming else m
  | .err e => { m with errorMsg := e, loading := false, streaming := false }
  | .clearStatus => { m with statusMsg := "" }
  | .spinnerTick =>
    if m.loading ∨ m.streaming then { m with spinnerFrame := (m.spinnerFrame + 1) % 10 }
    else m


/-! ## Auxiliary definitions used by the claim statements -/

/-- The filter predicate of claim C1: lower-cased content contains the
lower-cased filter. -/
def matchesFilter (filter : String) (l : Line) : Bool :=
  goContains (goToLower l.Content) (goToLower filter)

/-- Sample data for concrete witnesses. -/
def sampleLines : List Line := [⟨1, "alpha"⟩, ⟨2, "Beta"⟩, ⟨3, "gamma"⟩]

def sampleModel : Model :=
  { config := { PreviewSize := 40, PreviewSizeIsPercent := true,
                PreviewPosition := .bottom, RefreshInterval := 0 }
    lines := sampleLines
    filtered := [0, 1, 2]
    cursor := 0, offset := 0
    filter := "", filterMode := false
    showPreview := false, showHelp := false
    width := 80, height := 24
    loading := false, streaming := false
    lastLineCount := 3, userScrolled := false
    spinnerFrame := 0, errorMsg := "", statusMsg := "", exitCode := 0 }

/-- The input on which the claimed escape-sequence handling of
`truncateToWidth` fails: red-SGR prefix followed by `ABCD`. -/
def cexC6 : List Char := "\x1b[31mABCD".data

/-- The successful environment used to witness C8: spawn succeeds, the
child writes one line to each stream and exits with status 3. -/
def envC8 : RunEnv :=
  { stdoutPipeErr := none, stderrPipeErr := none, startErr := none
    stdoutLines := ["out"], stderrLines := ["err"], waitErr := some (some 3) }

/-- Inductive invariant of the interleaved streaming execution, for an
initial buffer whose numbers are `1..p`: entry numbers are at least their
index plus one, pairwise distinct, and bounded by `max p (counter-1)`; an
entry away from its home index was placed by an insertion (number below
the counter); a taken-but-uninserted number is below the counter and can
occur in the buffer only at its home index; the two readers never hold the
same number. -/
structure SInvProps (p : Nat) (s : SState) : Prop where
  lower : ∀ i, i < s.buf.lines.length → i + 1 ≤ (s.buf.lines.getD i dLine).Number
  distinct : ∀ i j, i < s.buf.lines.length → j < s.buf.lines.length → i ≠ j →
      (s.buf.lines.getD i dLine).Number ≠ (s.buf.lines.getD j dLine).Number
  upper : ∀ i, i < s.buf.lines.length →
      (s.buf.lines.getD i dLine).Number ≤ p ∨ (s.buf.lines.getD i dLine).Number < s.counter
  offHome : ∀ i, i < s.buf.lines.length → (s.buf.lines.getD i dLine).Number ≠ i + 1 →
      (s.buf.lines.getD i dLine).Number < s.counter
  tok : ∀ t n str, (s.reader t).taken = some (n, str) →
      1 ≤ n ∧ n < s.counter
        ∧ ∀ i, i < s.buf.lines.length → (s.buf.lines.getD i dLine).Number = n → i = n - 1
  tokDistinct : ∀ nA sA nB sB, (s.reader .A).taken = some (nA, sA) →
      (s.reader .B).taken = some (nB, sB) → nA ≠ nB
  cpos : 1 ≤ s.counter

/-- Inductive invariant of a run that emits at most as many lines as the
previous run left in the buffer (`total ≤ p`): every insertion then
overwrites in place, so the buffer keeps its length and its numbering
`1..p`; `currentLineCount` is the largest number already inserted. -/
structure SeqInv (p total : Nat) (s : SState) : Prop where
  count : s.counter + (s.reader .A).pending.length + (s.reader .B).pending.length
      = total + 1
  tok : ∀ t n str, (s.reader t).taken = some (n, str) → 1 ≤ n ∧ n < s.counter
  len : s.buf.lines.length = p
  home : ∀ i, i < s.buf.lines.length → (s.buf.lines.getD i dLine).Number = i + 1
  clcLe : s.buf.currentLineCount + 1 ≤ s.counter
  clcGe : ∀ k, 1 ≤ k → k < s.counter →
      (∀ str, (s.reader .A).taken ≠ some (k, str)) →
      (∀ str, (s.reader .B).taken ≠ some (k, str)) →
      k ≤ s.buf.currentLineCount
  cpos : 1 ≤ s.counter

/-- Viewport model used by the C5 witness: previous run left two lines. -/
def mC5 : Model := { sampleModel with lines := [⟨1, "x"⟩, ⟨2, "y"⟩], lastLineCount := 2 }

/-- Snapshot read by the C5 witness's done tick. -/
def snapC5 : StreamSnap :=
  { lines := [⟨1, "a"⟩, ⟨2, "y"⟩], done := true, exitCode := 0, error := none,
    currentLineCount := 1 }

/-! ## Viewport invariants (claims C2 and C9) -/

/-- Cursor part of the spec invariant: within `[0, len(filtered))` when
the filtered list is non-empty, pinned to 0 otherwise. -/
def cursorOK (m : Model) : Prop :=
  (m.filtered ≠ [] → 0 ≤ m.cursor ∧ m.cursor < (m.filtered.length : Int))
  ∧ (m.filtered = [] → m.cursor = 0)

/-- Offset upper bound of the spec invariant:
`offset ≤ max(0, len(filtered) − visibleRows)`. -/
def offsetUB (m : Model) : Prop :=
  m.offset ≤ max ((m.filtered.length : Int) - m.visibleLines) 0

/-- The full claimed viewport invariant. -/
def viewInv (m : Model) : Prop := cursorOK m ∧ 0 ≤ m.offset ∧ offsetUB m

instance (m : Model) : Decidable (cursorOK m) := by
  unfold cursorOK
  infer_instance

instance (m : Model) : Decidable (offsetUB m) := by
  unfold offsetUB
  infer_instance

instance (m : Model) : Decidable (viewInv m) := by
  unfold viewInv
  infer_instance

/-- A reachable 10-line viewport state: visible rows = 5 (height 10, no
preview), cursor at the last filtered line, offset at the maximum 5
(exactly the state after pressing `G`). -/
def linesC2 : List Line := (List.range 10).map (fun i => ⟨i + 1, "line"⟩)

/-- Viewport state used by the C2 counterexample. -/
def mC2 : Model :=
  { sampleModel with lines := linesC2, filtered := List.range 10,
                     cursor := 9, offset := 5, height := 10, lastLineCount := 10 }

/-- Viewport state used by the C9 counterexample (same shape as `mC2`). -/
def mC9 : Model :=
  { sampleModel with lines := linesC2, filtered := List.range 10,
                     cursor := 9, offset := 5, height := 10, lastLineCount := 10 }
/-! ## C1: the filtered index list -/

theorem listIsInfixOf_nil (l : List Char) : listIsInfixOf [] l = true := by
  cases l <;> simp [listIsInfixOf, listIsPrefixOf]

theorem goContains_empty (s : String) : goContains s "" = true := by
  simp [goContains, listIsInfixOf_nil]

theorem filterCond_eq (f : String) (l : Line) :
    (decide (f = "") || goContains (goToLower l.Content) (goToLower f))
      = matchesFilter f l := by
  by_cases hf : f = ""
  · subst hf
    simp [matchesFilter, goToLower, goContains_empty]
  · simp [hf, matchesFilter]

theorem filteredIndicesFrom_eq (f : String) (ls : List Line) : ∀ k : Nat,
    filteredIndicesFrom f k ls
      = ((List.range ls.length).filter (fun i => matchesFilter f (ls.getD i dLine))).map
          (· + k) := by
  induction ls with
  | nil => intro k; simp [filteredIndicesFrom]
  | cons l rest ih =>
    intro k
    rw [filteredIndicesFrom]
    have hrange : List.range (l :: rest).length
        = 0 :: (List.range rest.length).map Nat.succ := by
      simp [List.range_succ_eq_map]
    rw [hrange, List.filter_cons]
    simp only [List.getD_cons_zero, List.getD_cons_succ]
    rw [List.filter_map]
    have hcomp : ((fun i => matchesFilter f ((l :: rest).getD i dLine)) ∘ Nat.succ)
        = fun i => matchesFilter f (rest.getD i dLine) := by
      funext i; simp
    have hshift : ((List.filter (fun i => matchesFilter f (rest.getD i dLine))
        (List.range rest.length)).map Nat.succ).map (· + k)
        = (List.filter (fun i => matchesFilter f (rest.getD i dLine))
            (List.range rest.length)).map (· + (k + 1)) := by
      rw [List.map_map]; apply List.map_congr_left; intro i _; simp; omega
    rw [filterCond_eq]
    by_cases hm : matchesFilter f l = true
    · rw [if_pos hm, if_pos hm]
      simp only [List.map_cons, List.map_append]
      rw [ih (k + 1), hcomp, hshift]
      simp
    · rw [if_neg hm, if_neg hm]
      rw [ih (k + 1), hcomp, hshift]

/-- C1. After `updateFiltered`, `filtered` is exactly the ordered
subsequence of indices into `lines` whose lower-cased content contains the
lower-cased filter; the empty filter yields the identity mapping
`[0, ..., len-1]`. -/
theorem claim_C1 (m : Model) :
    (m.updateFiltered).filtered
      = (List.range m.lines.length).filter
          (fun i => goContains (goToLower ((m.lines.getD i dLine).Content))
            (goToLower m.filter))
    ∧ (m.filter = "" → (m.updateFiltered).filtered = List.range m.lines.length) := by
  have h0 : (m.updateFiltered).filtered = updateFilteredList m.lines m.filter := rfl
  have h1 : (m.updateFiltered).filtered
      = (List.range m.lines.length).filter
          (fun i => goContains (goToLower ((m.lines.getD i dLine).Content))
            (goToLower m.filter)) := by
    rw [h0, updateFilteredList, filteredIndicesFrom_eq]
    simp [matchesFilter]
  refine ⟨h1, fun hf => ?_⟩
  rw [h1]
  apply List.filter_eq_self.mpr
  intro a _
  rw [hf]
  exact goContains_empty _

/-- Witness for C1 at a concrete model with an empty filter. -/
theorem claim_C1_witness :
    sampleModel.filter = ""
      ∧ (sampleModel.updateFiltered).filtered = List.range sampleModel.lines.length :=
  ⟨rfl, (claim_C1 sampleModel).2 rfl⟩

/-! ## Text layout lemmas for C6/C7 -/

theorem sumWidth_nil : sumWidth [] = 0 := rfl

theorem sumWidth_cons (c : Char) (l : List Char) :
    sumWidth (c :: l) = charWidth c + sumWidth l := by
  simp [sumWidth]

theorem sumWidth_append (a b : List Char) :
    sumWidth (a ++ b) = sumWidth a + sumWidth b := by
  simp [sumWidth]

theorem stripAnsi_sublist : ∀ l : List Char,
    List.Sublist (stripAnsi l) l ∧ List.Sublist (stripAnsiInSeq l) l := by
  intro l
  induction l with
  | nil => exact ⟨List.Sublist.refl _, List.Sublist.refl _⟩
  | cons c rest ih =>
    constructor
    · rw [stripAnsi]
      by_cases hc : c = escChar
      · rw [if_pos hc]
        exact ih.2.trans (List.sublist_cons_self c rest)
      · rw [if_neg hc]
        exact ih.1.cons₂ c
    · rw [stripAnsiInSeq]
      by_cases hc : isAnsiTerminator c = true
      · rw [if_pos hc]
        exact ih.1.trans (List.sublist_cons_self c rest)
      · rw [if_neg hc]
        exact ih.2.trans (List.sublist_cons_self c rest)

theorem visualWidth_le_sumWidth (l : List Char) : visualWidth l ≤ sumWidth l := by
  have h : List.Sublist (stripAnsi l) l := (stripAnsi_sublist l).1
  have h2 : List.Sublist ((stripAnsi l).map charWidth) (l.map charWidth) :=
    h.map charWidth
  exact h2.sum_le_sum (fun a _ => Nat.zero_le a)

theorem charWidth_escChar : charWidth escChar = 0 := by decide

theorem stripAnsi_of_noEsc (l : List Char) (h : ∀ c ∈ l, c ≠ escChar) :
    stripAnsi l = l := by
  induction l with
  | nil => rfl
  | cons c rest ih =>
    rw [stripAnsi, if_neg (h c (List.mem_cons_self c rest))]
    rw [ih (fun a ha => h a (List.mem_cons_of_mem c ha))]

theorem visualWidth_of_noEsc (l : List Char) (h : ∀ c ∈ l, c ≠ escChar) :
    visualWidth l = sumWidth l := by
  rw [visualWidth, stripAnsi_of_noEsc l h]

theorem length_le_sumWidth (l : List Char) (h : ∀ c ∈ l, 1 ≤ charWidth c) :
    l.length ≤ sumWidth l := by
  induction l with
  | nil => simp [sumWidth]
  | cons c rest ih =>
    rw [sumWidth_cons]
    have h1 := h c (List.mem_cons_self c rest)
    have h2 := ih (fun a ha => h a (List.mem_cons_of_mem c ha))
    simp only [List.length_cons]
    omega

/-! ## C6: truncateToWidth -/

theorem truncLoop_isPrefix (t : Int) : ∀ (s : List Char) (cw : Nat),
    List.IsPrefix (truncLoop t s cw) s := by
  intro s
  induction s with
  | nil => intro cw; exact List.prefix_refl _
  | cons c rest ih =>
    intro cw
    rw [truncLoop]
    by_cases hc : ((cw + charWidth c : Nat) : Int) > t
    · rw [if_pos hc]; exact List.nil_prefix
    · rw [if_neg hc]
      exact List.cons_prefix_cons.mpr ⟨rfl, ih (cw + charWidth c)⟩

theorem truncLoop_width (t : Int) : ∀ (s : List Char) (cw : Nat),
    (cw : Int) ≤ t → ((cw + sumWidth (truncLoop t s cw) : Nat) : Int) ≤ t := by
  intro s
  induction s with
  | nil => intro cw h; simpa [truncLoop, sumWidth]
  | cons c rest ih =>
    intro cw h
    rw [truncLoop]
    by_cases hc : ((cw + charWidth c : Nat) : Int) > t
    · rw [if_pos hc]; simpa [sumWidth]
    · rw [if_neg hc]
      have h2 := ih (cw + charWidth c) (by omega)
      rw [sumWidth_cons]
      push_cast at h2 ⊢
      omega

theorem truncLoop_longest (t : Int) : ∀ (s q : List Char) (cw : Nat),
    List.IsPrefix q s → ((cw + sumWidth q : Nat) : Int) ≤ t →
    q.length ≤ (truncLoop t s cw).length := by
  intro s
  induction s with
  | nil =>
    intro q cw hq _
    rw [List.prefix_nil.mp hq]
    exact Nat.le_refl _
  | cons c rest ih =>
    intro q cw hq hw
    match q with
    | [] => exact Nat.zero_le _
    | a :: q' =>
      obtain ⟨ha, hq'⟩ := List.cons_prefix_cons.mp hq
      subst ha
      rw [sumWidth_cons] at hw
      have hfit : ¬ ((cw + charWidth a : Nat) : Int) > t := by
        push_cast at hw ⊢
        omega
      rw [truncLoop, if_neg hfit]
      simp only [List.length_cons]
      have := ih q' (cw + charWidth a) hq' (by push_cast at hw ⊢; omega)
      omega

/-- C6 counterexample.  At `maxWidth = 3` the code truncates the escape
sequence itself: the kept prefix is `ESC [ 3`, which splits the escape
sequence, and it is strictly shorter than the prefix `ESC [ 3 1 m A B`
whose visual width (2) also fits in `maxWidth - 1`, so the kept prefix is
not the longest fitting prefix and escape sequences are not zero-width to
the loop. -/
theorem claim_C6_counterexample :
    truncateToWidth cexC6 3 = "\x1b[3".data ++ [ellipsisChar]
    ∧ List.IsPrefix ("\x1b[31mAB".data) cexC6
    ∧ (visualWidth ("\x1b[31mAB".data) : Int) ≤ 3 - 1
    ∧ List.IsPrefix ("\x1b[3".data) cexC6
    ∧ ("\x1b[3".data).length < ("\x1b[31mAB".data).length
    ∧ truncateToWidth cexC6 3 ≠ "\x1b[31mAB".data ++ [ellipsisChar] := by decide

/-- C6 as amended: restricted to positive `maxWidth` and strings whose
runes all have positive width (no escape sequences, no control
characters), `truncateToWidth` returns the string unchanged when it fits,
and otherwise the longest prefix of visual width at most `maxWidth - 1`
followed by the one-column ellipsis; `Truncate("hello", 3) = "he…"`. -/
theorem claim_C6_amended (s : List Char) (maxWidth : Int)
    (hW : ∀ c ∈ s, 1 ≤ charWidth c) (hmw : 1 ≤ maxWidth) :
    ((visualWidth s : Int) ≤ maxWidth → truncateToWidth s maxWidth = s)
    ∧ ((visualWidth s : Int) > maxWidth →
        ∃ p, truncateToWidth s maxWidth = p ++ [ellipsisChar]
          ∧ List.IsPrefix p s ∧ (visualWidth p : Int) ≤ maxWidth - 1
          ∧ ∀ q, List.IsPrefix q s → (visualWidth q : Int) ≤ maxWidth - 1 →
              q.length ≤ p.length)
    ∧ truncateToWidth "hello".data 3 = "he…".data := by
  have hnoesc : ∀ c ∈ s, c ≠ escChar := by
    intro c hc he
    have := hW c hc
    rw [he, charWidth_escChar] at this
    omega
  have hvw : visualWidth s = sumWidth s := visualWidth_of_noEsc s hnoesc
  have hpre_vw : ∀ q : List Char, List.IsPrefix q s → visualWidth q = sumWidth q := by
    intro q hq
    exact visualWidth_of_noEsc q (fun c hc => hnoesc c (hq.subset hc))
  have hpre_w : ∀ q : List Char, List.IsPrefix q s → ∀ c ∈ q, 1 ≤ charWidth c := by
    intro q hq c hc
    exact hW c (hq.subset hc)
  refine ⟨?_, ?_, by decide⟩
  · intro hfit
    rw [truncateToWidth, if_neg (by omega), if_pos hfit]
  · intro hbig
    rw [truncateToWidth, if_neg (by omega), if_neg (by omega)]
    by_cases htw : maxWidth - 1 ≤ 0
    · simp only [if_pos htw]
      refine ⟨[], rfl, List.nil_prefix, by simp [visualWidth, stripAnsi, sumWidth]; omega, ?_⟩
      intro q hq hqw
      rw [hpre_vw q hq] at hqw
      have h1 := length_le_sumWidth q (hpre_w q hq)
      have : maxWidth - 1 = 0 := by omega
      rw [this] at hqw
      simp only [List.length_nil]
      omega
    · simp only [if_neg htw]
      refine ⟨truncLoop (maxWidth - 1) s 0, rfl, truncLoop_isPrefix _ s 0, ?_, ?_⟩
      · rw [hpre_vw _ (truncLoop_isPrefix _ s 0)]
        have := truncLoop_width (maxWidth - 1) s 0 (by omega)
        push_cast at this ⊢
        omega
      · intro q hq hqw
        rw [hpre_vw q hq] at hqw
        exact truncLoop_longest (maxWidth - 1) s q 0 hq (by push_cast; omega)

/-- Witness for the amended C6 at `("hello", 3)`. -/
theorem claim_C6_amended_witness :
    truncateToWidth "hello".data 3 = "he…".data :=
  (claim_C6_amended "hello".data 3 (by decide) (by decide)).2.2

/-! ## C7: wrapText -/

theorem wrapLoop_join (w : Int) : ∀ (rest : List Char) (cl : List Char) (cw : Nat),
    (wrapLoop w cl cw rest).flatten = cl ++ rest := by
  intro rest
  induction rest with
  | nil =>
    intro cl cw
    rw [wrapLoop]
    by_cases hcl : cl.isEmpty
    · rw [if_pos hcl]
      simp [List.isEmpty_iff.mp hcl]
    · rw [if_neg hcl]
      simp
  | cons c rest ih =>
    intro cl cw
    rw [wrapLoop]
    by_cases hc : ((cw + charWidth c : Nat) : Int) > w
    · rw [if_pos hc]
      simp only [List.flatten_cons]
      rw [ih [c] (charWidth c)]
      simp
    · rw [if_neg hc]
      rw [ih (cl ++ [c]) (cw + charWidth c)]
      simp

theorem wrapLoop_width (w : Int) : ∀ (rest : List Char) (cl : List Char) (cw : Nat),
    cw = sumWidth cl → (cw : Int) ≤ w → (∀ c ∈ rest, (charWidth c : Int) ≤ w) →
    ∀ l ∈ wrapLoop w cl cw rest, (sumWidth l : Int) ≤ w := by
  intro rest
  induction rest with
  | nil =>
    intro cl cw hcw hle _ l hl
    rw [wrapLoop] at hl
    by_cases hcl : cl.isEmpty
    · rw [if_pos hcl] at hl; simp at hl
    · rw [if_neg hcl] at hl
      simp at hl
      subst hl
      omega
  | cons c rest ih =>
    intro cl cw hcw hle hall l hl
    rw [wrapLoop] at hl
    by_cases hc : ((cw + charWidth c : Nat) : Int) > w
    · rw [if_pos hc] at hl
      rcases List.mem_cons.mp hl with h | h
      · subst h; omega
      · refine ih [c] (charWidth c) (by simp [sumWidth]) ?_ ?_ l h
        · exact hall c (List.mem_cons_self c rest)
        · intro a ha; exact hall a (List.mem_cons_of_mem c ha)
    · rw [if_neg hc] at hl
      refine ih (cl ++ [c]) (cw + charWidth c) ?_ (by omega) ?_ l hl
      · rw [sumWidth_append, sumWidth_cons, sumWidth_nil, hcw]; omega
      · intro a ha; exact hall a (List.mem_cons_of_mem c ha)

/-- C7 counterexample.  With width 1 and the double-width rune `日`,
`wrapText` emits an initial empty flushed line and then a line of visual
width 2 > 1, so "each returned line has visual width ≤ w" fails. -/
theorem claim_C7_counterexample :
    wrapText ['日'] 1 = [[], ['日']]
    ∧ ['日'] ∈ wrapText ['日'] 1
    ∧ ¬ ((visualWidth ['日'] : Int) ≤ 1) := by decide

/-- C7 as amended: for every positive width, concatenating the returned
lines reproduces the input exactly and the empty input yields exactly one
empty line; the per-line width bound `≤ w` additionally holds whenever
every individual rune of the input has width at most `w` (the code puts a
rune wider than `w` on a line of its own, flushing a possibly empty
line). -/
theorem claim_C7_amended (s : List Char) (w : Int) (hw : 0 < w) :
    (wrapText s w).flatten = s
    ∧ wrapText [] w = [[]]
    ∧ ((∀ c ∈ s, (charWidth c : Int) ≤ w) →
        ∀ l ∈ wrapText s w, (visualWidth l : Int) ≤ w) := by
  refine ⟨?_, ?_, ?_⟩
  · rw [wrapText, if_neg (by omega)]
    by_cases hs : s.isEmpty
    · rw [if_pos hs]
      simp [List.isEmpty_iff.mp hs]
    · rw [if_neg hs]
      rw [wrapLoop_join]
      simp
  · rw [wrapText, if_neg (by omega)]
    simp
  · intro hall l hl
    rw [wrapText, if_neg (by omega)] at hl
    by_cases hs : s.isEmpty
    · rw [if_pos hs] at hl
      simp at hl
      subst hl
      simp [visualWidth, stripAnsi, sumWidth]
      omega
    · rw [if_neg hs] at hl
      have h1 := wrapLoop_width w s [] 0 rfl (by omega) hall l hl
      have h2 := visualWidth_le_sumWidth l
      omega

/-- Witness for the amended C7 at `("ab", 1)`. -/
theorem claim_C7_amended_witness :
    (wrapText "ab".data 1).flatten = "ab".data
    ∧ (∀ l ∈ wrapText "ab".data 1, (visualWidth l : Int) ≤ 1) :=
  ⟨(claim_C7_amended "ab".data 1 (by decide)).1,
   (claim_C7_amended "ab".data 1 (by decide)).2.2 (by decide)⟩

/-! ## C8 and C10: the one-shot runner -/

/-- C8.  `Run` returns an error exactly when creating a pipe or starting
the shell fails; whenever the spawn succeeds, it returns `ok` with the
captured exit code (in particular a non-zero child exit is not an
error). -/
theorem claim_C8 (env : RunEnv) :
    ((∃ e, runnerRun env = .error e)
      ↔ (env.stdoutPipeErr ≠ none ∨ env.stderrPipeErr ≠ none ∨ env.startErr ≠ none))
    ∧ (env.stdoutPipeErr = none → env.stderrPipeErr = none → env.startErr = none →
        runnerRun env
          = .ok { Lines := numberLines 1 env.stdoutLines
                    ++ numberLines (env.stdoutLines.length + 1) env.stderrLines
                  ExitCode := runExitCode env.waitErr }) := by
  rcases env with ⟨o, e, st, ols, els, we⟩
  cases o <;> cases e <;> cases st <;>
    simp [runnerRun]

/-- Witness for C8: a run with exit status 3 yields `ok` with
`ExitCode = 3`, not an error. -/
theorem claim_C8_witness :
    runnerRun envC8 = .ok { Lines := [⟨1, "out"⟩, ⟨2, "err"⟩], ExitCode := 3 } := by
  have h := (claim_C8 envC8).2 rfl rfl rfl
  rw [h]
  rfl

theorem numberLines_length (xs : List String) : ∀ k, (numberLines k xs).length = xs.length := by
  induction xs with
  | nil => intro k; rfl
  | cons s rest ih =>
    intro k
    rw [numberLines]
    simp [ih]

theorem numberLines_getD (xs : List String) : ∀ k i, i < xs.length →
    (numberLines k xs).getD i dLine = ⟨k + i, sanitizeLine (xs.getD i "")⟩ := by
  induction xs with
  | nil => intro k i h; simp at h
  | cons s rest ih =>
    intro k i h
    rw [numberLines]
    match i with
    | 0 => simp
    | Nat.succ i' =>
      simp only [List.getD_cons_succ]
      rw [ih (k + 1) i' (by simpa using h)]
      have : k + 1 + i' = k + (i' + 1) := by omega
      rw [this]

theorem runLines_getD_left (out err : List String) (i : Nat) (hi : i < out.length) :
    (numberLines 1 out ++ numberLines (out.length + 1) err).getD i dLine
      = ⟨i + 1, sanitizeLine (out.getD i "")⟩ := by
  have hlen : i < (numberLines 1 out).length := by rwa [numberLines_length]
  rw [List.getD_append _ _ _ _ hlen, numberLines_getD _ 1 i hi]
  have : 1 + i = i + 1 := by omega
  rw [this]

theorem runLines_getD_right (out err : List String) (j : Nat) (hj : j < err.length) :
    (numberLines 1 out ++ numberLines (out.length + 1) err).getD (out.length + j) dLine
      = ⟨out.length + 1 + j, sanitizeLine (err.getD j "")⟩ := by
  have hlen : (numberLines 1 out).length = out.length := numberLines_length _ _
  have hsplit : out.length + j = (numberLines 1 out).length + j := by omega
  rw [hsplit, List.getD_append_right]
  · have h2 : (numberLines 1 out).length + j - (numberLines 1 out).length = j := by omega
    rw [h2, numberLines_getD _ (out.length + 1) j hj]
  · omega

/-- C10.  In one-shot mode, stdout is drained before stderr is read, so
the result's lines are the stdout lines numbered `1..n` followed by the
stderr lines numbered `n+1..n+m`; every stdout line number is smaller than
every stderr line number. -/
theorem claim_C10 (env : RunEnv)
    (h1 : env.stdoutPipeErr = none) (h2 : env.stderrPipeErr = none)
    (h3 : env.startErr = none) :
    ∃ res, runnerRun env = .ok res
      ∧ res.Lines.length = env.stdoutLines.length + env.stderrLines.length
      ∧ (∀ i, i < env.stdoutLines.length →
          (res.Lines.getD i dLine).Number = i + 1
          ∧ (res.Lines.getD i dLine).Content = sanitizeLine (env.stdoutLines.getD i ""))
      ∧ (∀ j, j < env.stderrLines.length →
          (res.Lines.getD (env.stdoutLines.length + j) dLine).Number
              = env.stdoutLines.length + j + 1
          ∧ (res.Lines.getD (env.stdoutLines.length + j) dLine).Content
              = sanitizeLine (env.stderrLines.getD j ""))
      ∧ (∀ i j, i < env.stdoutLines.length → j < env.stderrLines.length →
          (res.Lines.getD i dLine).Number
            < (res.Lines.getD (env.stdoutLines.length + j) dLine).Number) := by
  have hrun := (claim_C8 env).2 h1 h2 h3
  refine ⟨_, hrun, ?_, ?_, ?_, ?_⟩
  · simp [numberLines_length]
  · intro i hi
    rw [runLines_getD_left env.stdoutLines env.stderrLines i hi]
    exact ⟨rfl, rfl⟩
  · intro j hj
    rw [runLines_getD_right env.stdoutLines env.stderrLines j hj]
    refine ⟨?_, rfl⟩
    show env.stdoutLines.length + 1 + j = env.stdoutLines.length + j + 1
    omega
  · intro i j hi hj
    rw [runLines_getD_left env.stdoutLines env.stderrLines i hi,
      runLines_getD_right env.stdoutLines env.stderrLines j hj]
    show i + 1 < env.stdoutLines.length + 1 + j
    omega

/-- Witness for C10 at a concrete clean environment. -/
theorem claim_C10_witness :
    ∃ res, runnerRun envC8 = .ok res
      ∧ res.Lines.length = 2
      ∧ (res.Lines.getD 0 dLine).Number = 1
      ∧ (res.Lines.getD 1 dLine).Number = 2 := by
  obtain ⟨res, hres, hlen, hout, herr, _⟩ := claim_C10 envC8 rfl rfl rfl
  refine ⟨res, hres, hlen, (hout 0 (by decide)).1, ?_⟩
  have := (herr 0 (by decide)).1
  simpa using this
/-! ## List getD helpers for the streaming buffer -/

theorem getD_set_self (l : List Line) (i : Nat) (a : Line) (h : i < l.length) :
    (l.set i a).getD i dLine = a := by
  induction l generalizing i with
  | nil => simp at h
  | cons x xs ih =>
    match i with
    | 0 => rfl
    | Nat.succ i' =>
      simp only [List.set_cons_succ, List.getD_cons_succ]
      exact ih i' (by simpa using h)

theorem getD_set_ne (l : List Line) (i j : Nat) (a : Line) (h : i ≠ j) :
    (l.set i a).getD j dLine = l.getD j dLine := by
  induction l generalizing i j with
  | nil => simp
  | cons x xs ih =>
    match i, j with
    | 0, 0 => exact absurd rfl h
    | 0, Nat.succ j' => rfl
    | Nat.succ i', 0 => rfl
    | Nat.succ i', Nat.succ j' =>
      simp only [List.set_cons_succ, List.getD_cons_succ]
      exact ih i' j' (by omega)

theorem getD_append_last (l : List Line) (a : Line) :
    (l ++ [a]).getD l.length dLine = a := by
  induction l with
  | nil => rfl
  | cons x xs ih => simp [ih]

theorem getD_append_lt (l : List Line) (a : Line) (j : Nat) (h : j < l.length) :
    (l ++ [a]).getD j dLine = l.getD j dLine := by
  induction l generalizing j with
  | nil => simp at h
  | cons x xs ih =>
    match j with
    | 0 => rfl
    | Nat.succ j' =>
      simp only [List.cons_append, List.getD_cons_succ]
      exact ih j' (by simpa using h)

/-! ## C3: the race between line numbering and buffer insertion

`readPipe` takes the shared number under `lineNumMu` but inserts under the
separate `result.mu`, so the two readers' critical sections interleave. -/

/-- C3 counterexample.  Starting a fresh run (empty previous buffer) with
one stdout line and one stderr line, the interleaving
A-take, B-take, B-insert reaches a buffer whose single entry has line
number 2 at index 0, violating `lines[i].Number == i+1`: the insertion of
line 2 appends at index 0 because its home slot does not exist yet
(line 1 is taken but not yet inserted, and is later lost by overwriting). -/
theorem claim_C3_counterexample :
    ∃ s : SState, SReach (initSState [] ["a"] ["b"]) s
      ∧ s.buf.lines.length = 1
      ∧ (s.buf.lines.getD 0 dLine).Number = 2 := by
  refine ⟨_, SReach.step (SReach.step (SReach.step SReach.refl
      (SStep.take .A (initSState [] ["a"] ["b"]) "a" [] rfl rfl))
      (SStep.take .B _ "b" [] rfl rfl))
      (SStep.insert .B _ 2 "b" rfl), rfl, rfl⟩

theorem takeState_buf (s : SState) (t : Tag) (str : String) (rest : List String) :
    (takeState s t str rest).buf = s.buf := by cases t <;> rfl

theorem takeState_counter (s : SState) (t : Tag) (str : String) (rest : List String) :
    (takeState s t str rest).counter = s.counter + 1 := by cases t <;> rfl

theorem reader_takeState (s : SState) (t t' : Tag) (str : String) (rest : List String) :
    (takeState s t str rest).reader t'
      = if t' = t then ⟨rest, some (s.counter, str)⟩ else s.reader t' := by
  cases t <;> cases t' <;> simp [takeState, SState.setReader, SState.reader]

theorem insertState_buf (s : SState) (t : Tag) (n : Nat) (str : String) :
    (insertState s t n str).buf = insertLine s.buf n str := by cases t <;> rfl

theorem insertState_counter (s : SState) (t : Tag) (n : Nat) (str : String) :
    (insertState s t n str).counter = s.counter := by cases t <;> rfl

theorem reader_insertState (s : SState) (t t' : Tag) (n : Nat) (str : String) :
    (insertState s t n str).reader t'
      = if t' = t then ⟨(s.reader t).pending, none⟩ else s.reader t' := by
  cases t <;> cases t' <;> simp [insertState, SState.setReader, SState.reader]

theorem sinv_init (prev : List Line) (outs errs : List String)
    (hprev : ∀ i, i < prev.length → (prev.getD i dLine).Number = i + 1) :
    SInvProps prev.length (initSState prev outs errs) := by
  refine ⟨?_, ?_, ?_, ?_, ?_, ?_, ?_⟩
  · intro i hi
    simp only [initSState] at hi ⊢
    rw [hprev i hi]
  · intro i j hi hj hij
    simp only [initSState] at hi hj ⊢
    rw [hprev i hi, hprev j hj]
    omega
  · intro i hi
    left
    simp only [initSState] at hi ⊢
    rw [hprev i hi]
    omega
  · intro i hi hoff
    simp only [initSState] at hi hoff
    exact absurd (hprev i hi) hoff
  · intro t n str h
    cases t <;> simp [SState.reader, initSState] at h
  · intro nA sA nB sB hA
    simp [initSState, SState.reader] at hA
  · exact Nat.le_refl 1

theorem sinv_step (p : Nat) {s s' : SState} (inv : SInvProps p s) (hst : SStep s s') :
    SInvProps p s' := by
  cases hst with
  | take t _ str rest hp ht =>
    refine ⟨?_, ?_, ?_, ?_, ?_, ?_, ?_⟩
    · intro i hi
      rw [takeState_buf] at hi ⊢
      exact inv.lower i hi
    · intro i j hi hj hij
      rw [takeState_buf] at hi hj ⊢
      exact inv.distinct i j hi hj hij
    · intro i hi
      rw [takeState_buf] at hi ⊢
      rw [takeState_counter]
      rcases inv.upper i hi with h | h
      · exact Or.inl h
      · exact Or.inr (by omega)
    · intro i hi hoff
      rw [takeState_buf] at hi hoff ⊢
      rw [takeState_counter]
      have := inv.offHome i hi hoff
      omega
    · intro t' n nstr htk
      rw [reader_takeState] at htk
      simp only [takeState_buf, takeState_counter]
      by_cases htt : t' = t
      · rw [if_pos htt] at htk
        simp only [Option.some.injEq, Prod.mk.injEq] at htk
        obtain ⟨hn, hstr⟩ := htk
        subst hn
        refine ⟨inv.cpos, by omega, ?_⟩
        intro i hi hnum
        rcases inv.upper i hi with hub | hub
        · by_cases hhome : (s.buf.lines.getD i dLine).Number = i + 1
          · omega
          · have := inv.offHome i hi hhome
            omega
        · omega
      · rw [if_neg htt] at htk
        obtain ⟨h1, h2, h3⟩ := inv.tok t' n nstr htk
        exact ⟨h1, by omega, h3⟩
    · intro nA sA nB sB hA hB
      rw [reader_takeState] at hA hB
      cases t with
      | A =>
        rw [if_pos rfl] at hA
        rw [if_neg (by simp)] at hB
        simp only [Option.some.injEq, Prod.mk.injEq] at hA
        obtain ⟨h1, _⟩ := hA
        subst h1
        have := (inv.tok .B nB sB hB).2.1
        omega
      | B =>
        rw [if_pos rfl] at hB
        rw [if_neg (by simp)] at hA
        simp only [Option.some.injEq, Prod.mk.injEq] at hB
        obtain ⟨h1, _⟩ := hB
        subst h1
        have := (inv.tok .A nA sA hA).2.1
        omega
    · rw [takeState_counter]
      have := inv.cpos
      omega
  | insert t _ n str ht =>
    obtain ⟨hn1, hnc, hhome⟩ := inv.tok t n str ht
    by_cases hover : n - 1 < s.buf.lines.length
    · -- overwrite in place at the home index n-1
      have hlines : (insertLine s.buf n str).lines
          = s.buf.lines.set (n - 1) ⟨n, sanitizeLine str⟩ := by
        simp only [insertLine, if_pos hover]
      have hlen : (insertLine s.buf n str).lines.length = s.buf.lines.length := by
        rw [hlines, List.length_set]
      have hgetD : ∀ i, i < s.buf.lines.length →
          (insertLine s.buf n str).lines.getD i dLine
            = if i = n - 1 then ⟨n, sanitizeLine str⟩ else s.buf.lines.getD i dLine := by
        intro i hi
        rw [hlines]
        by_cases hieq : i = n - 1
        · rw [if_pos hieq, hieq, getD_set_self _ _ _ (by omega)]
        · rw [if_neg hieq, getD_set_ne _ _ _ _ (by omega)]
      refine ⟨?_, ?_, ?_, ?_, ?_, ?_, ?_⟩
      · intro i hi
        rw [insertState_buf, hlen] at hi
        rw [insertState_buf, hgetD i hi]
        by_cases hieq : i = n - 1
        · rw [if_pos hieq]
          simp only
          omega
        · rw [if_neg hieq]
          exact inv.lower i hi
      · intro i j hi hj hij
        rw [insertState_buf, hlen] at hi hj
        rw [insertState_buf, hgetD i hi, hgetD j hj]
        by_cases hieq : i = n - 1 <;> by_cases hjeq : j = n - 1
        · omega
        · rw [if_pos hieq, if_neg hjeq]
          simp only
          intro hcon
          exact hjeq (hhome j hj hcon.symm)
        · rw [if_neg hieq, if_pos hjeq]
          simp only
          intro hcon
          exact hieq (hhome i hi hcon)
        · rw [if_neg hieq, if_neg hjeq]
          exact inv.distinct i j hi hj hij
      · intro i hi
        rw [insertState_buf, hlen] at hi
        rw [insertState_buf, hgetD i hi, insertState_counter]
        by_cases hieq : i = n - 1
        · rw [if_pos hieq]
          exact Or.inr hnc
        · rw [if_neg hieq]
          exact inv.upper i hi
      · intro i hi hoff
        rw [insertState_buf, hlen] at hi
        rw [insertState_buf, hgetD i hi] at hoff ⊢
        rw [insertState_counter]
        by_cases hieq : i = n - 1
        · rw [if_pos hieq]
          exact hnc
        · rw [if_neg hieq] at hoff ⊢
          exact inv.offHome i hi hoff
      · intro t' m mstr htk
        rw [reader_insertState] at htk
        simp only [insertState_buf, insertState_counter, hlen]
        by_cases htt : t' = t
        · rw [if_pos htt] at htk
          simp at htk
        · rw [if_neg htt] at htk
          obtain ⟨h1, h2, h3⟩ := inv.tok t' m mstr htk
          have hmn : m ≠ n := by
            cases t with
            | A =>
              cases t' with
              | A => exact absurd rfl htt
              | B => exact (inv.tokDistinct n str m mstr ht htk).symm
            | B =>
              cases t' with
              | A => exact inv.tokDistinct m mstr n str htk ht
              | B => exact absurd rfl htt
          refine ⟨h1, h2, ?_⟩
          intro i hi hnum
          rw [hgetD i hi] at hnum
          by_cases hieq : i = n - 1
          · rw [if_pos hieq] at hnum
            simp only at hnum
            exact absurd hnum.symm hmn
          · rw [if_neg hieq] at hnum
            exact h3 i hi hnum
      · intro nA sA nB sB hA hB
        rw [reader_insertState] at hA hB
        cases t with
        | A =>
          rw [if_pos rfl] at hA
          simp at hA
        | B =>
          rw [if_pos rfl] at hB
          simp at hB
      · rw [insertState_counter]
        exact inv.cpos
    · -- append at the end; the entry lands at index len ≤ n-1
      have hlines : (insertLine s.buf n str).lines
          = s.buf.lines ++ [⟨n, sanitizeLine str⟩] := by
        simp only [insertLine, if_neg hover]
      have hlen : (insertLine s.buf n str).lines.length = s.buf.lines.length + 1 := by
        rw [hlines, List.length_append, List.length_singleton]
      have hgeq : s.buf.lines.length + 1 ≤ n := by omega
      have hgetD : ∀ i, i < s.buf.lines.length + 1 →
          (insertLine s.buf n str).lines.getD i dLine
            = if i = s.buf.lines.length then ⟨n, sanitizeLine str⟩
              else s.buf.lines.getD i dLine := by
        intro i hi
        rw [hlines]
        by_cases hieq : i = s.buf.lines.length
        · rw [if_pos hieq, hieq, getD_append_last]
        · rw [if_neg hieq, getD_append_lt _ _ _ (by omega)]
      refine ⟨?_, ?_, ?_, ?_, ?_, ?_, ?_⟩
      · intro i hi
        rw [insertState_buf, hlen] at hi
        rw [insertState_buf, hgetD i hi]
        by_cases hieq : i = s.buf.lines.length
        · rw [if_pos hieq]
          simp only
          omega
        · rw [if_neg hieq]
          exact inv.lower i (by omega)
      · intro i j hi hj hij
        rw [insertState_buf, hlen] at hi hj
        rw [insertState_buf, hgetD i hi, hgetD j hj]
        by_cases hieq : i = s.buf.lines.length <;>
          by_cases hjeq : j = s.buf.lines.length
        · omega
        · rw [if_pos hieq, if_neg hjeq]
          simp only
          intro hcon
          have := hhome j (by omega) hcon.symm
          omega
        · rw [if_neg hieq, if_pos hjeq]
          simp only
          intro hcon
          have := hhome i (by omega) hcon
          omega
        · rw [if_neg hieq, if_neg hjeq]
          exact inv.distinct i j (by omega) (by omega) hij
      · intro i hi
        rw [insertState_buf, hlen] at hi
        rw [insertState_buf, hgetD i hi, insertState_counter]
        by_cases hieq : i = s.buf.lines.length
        · rw [if_pos hieq]
          exact Or.inr hnc
        · rw [if_neg hieq]
          exact inv.upper i (by omega)
      · intro i hi hoff
        rw [insertState_buf, hlen] at hi
        rw [insertState_buf, hgetD i hi] at hoff ⊢
        rw [insertState_counter]
        by_cases hieq : i = s.buf.lines.length
        · rw [if_pos hieq]
          exact hnc
        · rw [if_neg hieq] at hoff ⊢
          exact inv.offHome i (by omega) hoff
      · intro t' m mstr htk
        rw [reader_insertState] at htk
        simp only [insertState_buf, insertState_counter, hlen]
        by_cases htt : t' = t
        · rw [if_pos htt] at htk
          simp at htk
        · rw [if_neg htt] at htk
          obtain ⟨h1, h2, h3⟩ := inv.tok t' m mstr htk
          have hmn : m ≠ n := by
            cases t with
            | A =>
              cases t' with
              | A => exact absurd rfl htt
              | B => exact (inv.tokDistinct n str m mstr ht htk).symm
            | B =>
              cases t' with
              | A => exact inv.tokDistinct m mstr n str htk ht
              | B => exact absurd rfl htt
          refine ⟨h1, h2, ?_⟩
          intro i hi hnum
          rw [hgetD i hi] at hnum
          by_cases hieq : i = s.buf.lines.length
          · rw [if_pos hieq] at hnum
            simp only at hnum
            exact absurd hnum.symm hmn
          · rw [if_neg hieq] at hnum
            exact h3 i (by omega) hnum
      · intro nA sA nB sB hA hB
        rw [reader_insertState] at hA hB
        cases t with
        | A =>
          rw [if_pos rfl] at hA
          simp at hA
        | B =>
          rw [if_pos rfl] at hB
          simp at hB
      · rw [insertState_counter]
        exact inv.cpos

theorem sinv_reach (prev : List Line) (outs errs : List String)
    (hprev : ∀ i, i < prev.length → (prev.getD i dLine).Number = i + 1)
    {s : SState} (h : SReach (initSState prev outs errs) s) :
    SInvProps prev.length s := by
  induction h with
  | refl => exact sinv_init prev outs errs hprev
  | step hr hst ih => exact sinv_step _ ih hst

/-- C3 as amended: for every interleaving, the numbers handed out by the
shared counter are unique, so the buffer never holds two entries with the
same `Number`, and every entry's number is at least its index plus one;
but `lines[i].Number == i+1` does not hold in every reachable state (see
the counterexample), because the counter is guarded by `lineNumMu`, a
separate mutex from the buffer's `result.mu`. -/
theorem claim_C3_amended (prev : List Line) (outs errs : List String)
    (hprev : ∀ i, i < prev.length → (prev.getD i dLine).Number = i + 1)
    (s : SState) (hr : SReach (initSState prev outs errs) s) :
    (∀ i j, i < s.buf.lines.length → j < s.buf.lines.length → i ≠ j →
        (s.buf.lines.getD i dLine).Number ≠ (s.buf.lines.getD j dLine).Number)
    ∧ (∀ i, i < s.buf.lines.length → i + 1 ≤ (s.buf.lines.getD i dLine).Number) := by
  have h := sinv_reach prev outs errs hprev hr
  exact ⟨h.distinct, h.lower⟩

/-- Witness for the amended C3 along a concrete two-step interleaving. -/
theorem claim_C3_amended_witness :
    ∃ s : SState, SReach (initSState [] ["a"] []) s
      ∧ (∀ i j, i < s.buf.lines.length → j < s.buf.lines.length → i ≠ j →
          (s.buf.lines.getD i dLine).Number ≠ (s.buf.lines.getD j dLine).Number)
      ∧ (∀ i, i < s.buf.lines.length → i + 1 ≤ (s.buf.lines.getD i dLine).Number) := by
  have hreach : SReach (initSState [] ["a"] [])
      (insertState (takeState (initSState [] ["a"] []) .A "a" []) .A 1 "a") :=
    SReach.step (SReach.step SReach.refl
      (SStep.take .A (initSState [] ["a"] []) "a" [] rfl rfl))
      (SStep.insert .A _ 1 "a" rfl)
  exact ⟨_, hreach,
    claim_C3_amended [] ["a"] [] (fun i hi => by simp at hi) _ hreach⟩

theorem seqInv_init (prev : List Line) (outs errs : List String)
    (hprev : ∀ i, i < prev.length → (prev.getD i dLine).Number = i + 1) :
    SeqInv prev.length (outs.length + errs.length) (initSState prev outs errs) := by
  refine ⟨?_, ?_, rfl, ?_, ?_, ?_, ?_⟩
  · simp [initSState, SState.reader]
    omega
  · intro t n str h
    cases t <;> simp [SState.reader, initSState] at h
  · intro i hi
    simp only [initSState] at hi ⊢
    exact hprev i hi
  · simp [initSState]
  · intro k h1 h2
    simp only [initSState] at h2
    omega
  · exact Nat.le_refl 1

theorem seqInv_step (p total : Nat) (htot : total ≤ p) {s s' : SState}
    (inv : SeqInv p total s) (hst : SStep s s') : SeqInv p total s' := by
  cases hst with
  | take t _ str rest hp ht =>
    have hplen : (s.reader t).pending.length = rest.length + 1 := by
      rw [hp]; rfl
    refine ⟨?_, ?_, ?_, ?_, ?_, ?_, ?_⟩
    · rw [takeState_counter]
      rw [reader_takeState, reader_takeState]
      cases t with
      | A =>
        rw [if_pos rfl, if_neg (by simp)]
        have := inv.count
        simp only
        omega
      | B =>
        rw [if_neg (by simp), if_pos rfl]
        have := inv.count
        simp only
        omega
    · intro t' n nstr htk
      rw [reader_takeState] at htk
      rw [takeState_counter]
      by_cases htt : t' = t
      · rw [if_pos htt] at htk
        simp only [Option.some.injEq, Prod.mk.injEq] at htk
        obtain ⟨hn, _⟩ := htk
        subst hn
        exact ⟨inv.cpos, by omega⟩
      · rw [if_neg htt] at htk
        have := inv.tok t' n nstr htk
        omega
    · rw [takeState_buf]
      exact inv.len
    · intro i hi
      rw [takeState_buf] at hi ⊢
      exact inv.home i hi
    · rw [takeState_buf, takeState_counter]
      have := inv.clcLe
      omega
    · intro k h1 h2 hA hB
      rw [takeState_buf]
      rw [reader_takeState] at hA hB
      rw [takeState_counter] at h2
      by_cases hk : k = s.counter
      · subst hk
        cases t with
        | A =>
          rw [if_pos rfl] at hA
          exact absurd rfl (hA str)
        | B =>
          rw [if_pos rfl] at hB
          exact absurd rfl (hB str)
      · have h2' : k < s.counter := by omega
        refine inv.clcGe k h1 h2' ?_ ?_
        · intro nstr
          by_cases htA : (Tag.A : Tag) = t
          · rw [← htA] at ht
            rw [ht]
            simp
          · have := hA nstr
            rw [if_neg htA] at this
            exact this
        · intro nstr
          by_cases htB : (Tag.B : Tag) = t
          · rw [← htB] at ht
            rw [ht]
            simp
          · have := hB nstr
            rw [if_neg htB] at this
            exact this
    · rw [takeState_counter]
      have := inv.cpos
      omega
  | insert t _ n str ht =>
    obtain ⟨hn1, hnc⟩ := inv.tok t n str ht
    have hcount := inv.count
    have hnp : n ≤ p := by omega
    have hover : n - 1 < s.buf.lines.length := by
      rw [inv.len]; omega
    have hlines : (insertLine s.buf n str).lines
        = s.buf.lines.set (n - 1) ⟨n, sanitizeLine str⟩ := by
      simp only [insertLine, if_pos hover]
    have hclc : (insertLine s.buf n str).currentLineCount
        = if n > s.buf.currentLineCount then n else s.buf.currentLineCount := rfl
    refine ⟨?_, ?_, ?_, ?_, ?_, ?_, ?_⟩
    · rw [insertState_counter, reader_insertState, reader_insertState]
      have := inv.count
      cases t with
      | A =>
        rw [if_pos rfl, if_neg (by simp)]
        simpa using this
      | B =>
        rw [if_neg (by simp), if_pos rfl]
        simpa using this
    · intro t' m mstr htk
      rw [reader_insertState] at htk
      rw [insertState_counter]
      by_cases htt : t' = t
      · rw [if_pos htt] at htk
        simp at htk
      · rw [if_neg htt] at htk
        exact inv.tok t' m mstr htk
    · rw [insertState_buf, hlines, List.length_set]
      exact inv.len
    · intro i hi
      rw [insertState_buf, hlines, List.length_set] at hi
      rw [insertState_buf, hlines]
      by_cases hieq : i = n - 1
      · rw [hieq, getD_set_self _ _ _ (by omega)]
        simp only
        omega
      · rw [getD_set_ne _ _ _ _ (by omega)]
        exact inv.home i hi
    · rw [insertState_buf, hclc, insertState_counter]
      have := inv.clcLe
      by_cases hgt : n > s.buf.currentLineCount
      · rw [if_pos hgt]; omega
      · rw [if_neg hgt]; omega
    · intro k h1 h2 hA hB
      rw [insertState_buf, hclc]
      rw [insertState_counter] at h2
      rw [reader_insertState] at hA hB
      by_cases hk : k = n
      · subst hk
        by_cases hgt : k > s.buf.currentLineCount
        · rw [if_pos hgt]
        · rw [if_neg hgt]; omega
      · have hle : k ≤ s.buf.currentLineCount := by
          refine inv.clcGe k h1 h2 ?_ ?_
          · intro nstr
            by_cases htA : (Tag.A : Tag) = t
            · rw [← htA] at ht
              rw [ht]
              simp
              omega
            · have := hA nstr
              rw [if_neg htA] at this
              exact this
          · intro nstr
            by_cases htB : (Tag.B : Tag) = t
            · rw [← htB] at ht
              rw [ht]
              simp
              omega
            · have := hB nstr
              rw [if_neg htB] at this
              exact this
        by_cases hgt : n > s.buf.currentLineCount
        · rw [if_pos hgt]; omega
        · rw [if_neg hgt]; omega
    · rw [insertState_counter]
      exact inv.cpos

theorem seqInv_reach (prev : List Line) (outs errs : List String)
    (hprev : ∀ i, i < prev.length → (prev.getD i dLine).Number = i + 1)
    (htot : outs.length + errs.length ≤ prev.length)
    {s : SState} (h : SReach (initSState prev outs errs) s) :
    SeqInv prev.length (outs.length + errs.length) s := by
  induction h with
  | refl => exact seqInv_init prev outs errs hprev
  | step hr hst ih => exact seqInv_step _ _ htot ih hst

/-! ## C4 and C5: in-place merge and trim -/

theorem updateFiltered_lines (m : Model) : (Model.updateFiltered m).lines = m.lines := rfl

theorem streamTickCount_lines (m : Model) (snap : StreamSnap) :
    (m.streamTickCount snap).lines
      = if snap.lines.length ≠ m.lastLineCount then snap.lines else m.lines := by
  rw [Model.streamTickCount]
  by_cases hc : snap.lines.length ≠ m.lastLineCount
  · rw [if_pos hc, if_pos hc]
    by_cases hu : !(Model.updateFiltered
        { m with lines := snap.lines, lastLineCount := snap.lines.length }).userScrolled
    · rw [if_pos hu]
      by_cases hv : (Model.updateFiltered
          { m with lines := snap.lines, lastLineCount := snap.lines.length }).visibleLines > 0
      · rw [if_pos hv]
        rfl
      · rw [if_neg hv]
        rfl
    · rw [if_neg hu]
      rfl
  · rw [if_neg hc, if_neg hc]

theorem streamTick_done_length (m : Model) (snap : StreamSnap) (hd : snap.done = true)
    (hlen : snap.lines.length = m.lines.length) :
    (m.streamTick snap).lines.length = min snap.currentLineCount m.lines.length := by
  rw [Model.streamTick]
  have hm1 : (m.streamTickCount snap).lines.length = m.lines.length := by
    rw [streamTickCount_lines]
    by_cases hc : snap.lines.length ≠ m.lastLineCount
    · rw [if_pos hc, hlen]
    · rw [if_neg hc]
  rw [hd]
  simp only [if_true]
  by_cases htr : snap.currentLineCount < (m.streamTickCount snap).lines.length
  · rw [if_pos htr, updateFiltered_lines]
    simp only [List.length_take]
    omega
  · rw [if_neg htr]
    simp only
    omega

theorem seqInv_final (p total : Nat) (s : SState) (inv : SeqInv p total s)
    (hfin : s.final) :
    s.counter = total + 1 ∧ s.buf.currentLineCount = total := by
  obtain ⟨hAp, hAt, hBp, hBt⟩ := hfin
  have hc := inv.count
  have hcA : (s.reader .A).pending.length = 0 := by
    show s.rA.pending.length = 0
    rw [hAp]
    rfl
  have hcB : (s.reader .B).pending.length = 0 := by
    show s.rB.pending.length = 0
    rw [hBp]
    rfl
  have hcounter : s.counter = total + 1 := by omega
  refine ⟨hcounter, ?_⟩
  have hle : s.buf.currentLineCount ≤ total := by
    have := inv.clcLe
    omega
  rcases Nat.eq_zero_or_pos total with h0 | hpos
  · omega
  · have hge : total ≤ s.buf.currentLineCount := by
      refine inv.clcGe total hpos (by omega) ?_ ?_
      · intro str
        show s.rA.taken ≠ some (total, str)
        rw [hAt]
        simp
      · intro str
        show s.rB.taken ≠ some (total, str)
        rw [hBt]
        simp
    omega

/-- C4.  `RunStreaming` seeds the buffer with a copy of the previous
run's lines; each emitted line `k` overwrites index `k-1` in place when it
exists and is appended otherwise; and when the new run emits exactly as
many lines as the previous run left in the buffer, every reachable state
of every interleaving keeps the buffer's length and all its `Line.Number`
fields unchanged (`lines[i].Number = i+1`) — only contents change. -/
theorem claim_C4 (prev : List Line) (outs errs : List String)
    (hprev : ∀ i, i < prev.length → (prev.getD i dLine).Number = i + 1)
    (htot : outs.length + errs.length = prev.length)
    (s : SState) (hr : SReach (initSState prev outs errs) s) :
    (initSState prev outs errs).buf.lines = prev
    ∧ (∀ (b : SBuf) (n : Nat) (str : String),
        (insertLine b n str).lines
          = if n - 1 < b.lines.length then b.lines.set (n - 1) ⟨n, sanitizeLine str⟩
            else b.lines ++ [⟨n, sanitizeLine str⟩])
    ∧ s.buf.lines.length = prev.length
    ∧ (∀ i, i < s.buf.lines.length → (s.buf.lines.getD i dLine).Number = i + 1) := by
  have hinv := seqInv_reach prev outs errs hprev (by omega) hr
  exact ⟨rfl, fun b n str => rfl, hinv.len, hinv.home⟩

/-- Witness for C4: a two-line previous buffer refreshed by a two-line
run along a concrete interleaving; numbers stay `1, 2`. -/
theorem claim_C4_witness :
    ∃ s : SState, SReach (initSState [⟨1, "x"⟩, ⟨2, "y"⟩] ["a", "b"] []) s
      ∧ s.buf.lines.length = 2
      ∧ (∀ i, i < s.buf.lines.length → (s.buf.lines.getD i dLine).Number = i + 1) := by
  have hreach : SReach (initSState [⟨1, "x"⟩, ⟨2, "y"⟩] ["a", "b"] [])
      (insertState (takeState (insertState (takeState
        (initSState [⟨1, "x"⟩, ⟨2, "y"⟩] ["a", "b"] []) .A "a" ["b"]) .A 1 "a")
          .A "b" []) .A 2 "b") :=
    SReach.step (SReach.step (SReach.step (SReach.step SReach.refl
      (SStep.take .A _ "a" ["b"] rfl rfl))
      (SStep.insert .A _ 1 "a" rfl))
      (SStep.take .A _ "b" [] rfl rfl))
      (SStep.insert .A _ 2 "b" rfl)
  have h := claim_C4 [⟨1, "x"⟩, ⟨2, "y"⟩] ["a", "b"] []
    (by decide) rfl _ hreach
  exact ⟨_, hreach, h.2.2.1, h.2.2.2⟩

/-- C5.  If a run emits strictly fewer lines than the previous run left
in the buffer, then in every interleaving the buffer keeps the previous
length, `CurrentLineCount` ends at the new run's final line count, and the
viewport's done tick truncates its line list to exactly that count. -/
theorem claim_C5 (prev : List Line) (outs errs : List String)
    (hprev : ∀ i, i < prev.length → (prev.getD i dLine).Number = i + 1)
    (hlt : outs.length + errs.length < prev.length)
    (s : SState) (hr : SReach (initSState prev outs errs) s) (hfin : s.final)
    (m : Model) (snap : StreamSnap)
    (hsd : snap.done = true)
    (hsl : snap.lines.length = s.buf.lines.length)
    (hsc : snap.currentLineCount = s.buf.currentLineCount)
    (hml : m.lines.length = prev.length) :
    s.buf.lines.length = prev.length
    ∧ s.buf.currentLineCount = outs.length + errs.length
    ∧ (m.update (.streamTick (some snap))).lines.length = outs.length + errs.length := by
  have hinv := seqInv_reach prev outs errs hprev (by omega) hr
  have hfinal := seqInv_final _ _ s hinv hfin
  refine ⟨hinv.len, hfinal.2, ?_⟩
  have hupd : m.update (.streamTick (some snap)) = m.streamTick snap := rfl
  rw [hupd, streamTick_done_length m snap hsd (by rw [hsl, hinv.len, hml])]
  rw [hsc, hfinal.2, hml]
  omega

/-- Witness for C5: a two-line previous buffer, a one-line new run, and
the viewport's done tick shrinking the list to one line. -/
theorem claim_C5_witness :
    ∃ s : SState, SReach (initSState [⟨1, "x"⟩, ⟨2, "y"⟩] ["a"] []) s ∧ s.final
      ∧ s.buf.currentLineCount = 1
      ∧ (mC5.update (.streamTick (some snapC5))).lines.length = 1 := by
  have hreach : SReach (initSState [⟨1, "x"⟩, ⟨2, "y"⟩] ["a"] [])
      (insertState (takeState (initSState [⟨1, "x"⟩, ⟨2, "y"⟩] ["a"] []) .A "a" [])
        .A 1 "a") :=
    SReach.step (SReach.step SReach.refl
      (SStep.take .A _ "a" [] rfl rfl))
      (SStep.insert .A _ 1 "a" rfl)
  have h := claim_C5 [⟨1, "x"⟩, ⟨2, "y"⟩] ["a"] []
    (by intro i hi; simp at hi; interval_cases i <;> rfl) (by decide)
    _ hreach ⟨rfl, rfl, rfl, rfl⟩ mC5 snapC5 rfl rfl rfl rfl
  exact ⟨_, hreach, ⟨rfl, rfl, rfl, rfl⟩, h.2.1, h.2.2⟩

/-! ## C2/C9: viewport invariant lemmas -/

theorem adjustOffset_spec (m : Model) :
    (m.adjustOffset).cursor = m.cursor
    ∧ (m.adjustOffset).filtered = m.filtered
    ∧ (m.adjustOffset).lines = m.lines
    ∧ (m.adjustOffset).visibleLines = m.visibleLines
    ∧ (m.visibleLines ≤ 0 → (m.adjustOffset).offset = m.offset)
    ∧ (0 < m.visibleLines →
        (m.adjustOffset).offset
          = min (max (m.cursor - Int.tdiv m.visibleLines 2) 0)
              (max ((m.filtered.length : Int) - m.visibleLines) 0)) := by
  by_cases h : m.visibleLines ≤ 0
  · rw [Model.adjustOffset, if_pos h]
    exact ⟨rfl, rfl, rfl, rfl, fun _ => rfl, fun hp => absurd hp (by omega)⟩
  · rw [Model.adjustOffset, if_neg h]
    exact ⟨rfl, rfl, rfl, rfl, fun hle => absurd hle h, fun _ => rfl⟩

theorem adjustOffset_inv (m : Model) :
    (0 ≤ m.offset → 0 ≤ (m.adjustOffset).offset)
    ∧ (offsetUB m → offsetUB (m.adjustOffset))
    ∧ (0 < m.visibleLines → 0 ≤ (m.adjustOffset).offset ∧ offsetUB (m.adjustOffset)) := by
  obtain ⟨hc, hf, _, hv, h0, hp⟩ := adjustOffset_spec m
  by_cases h : m.visibleLines ≤ 0
  · rw [h0 h]
    refine ⟨fun h' => h', fun hub => ?_, fun hpos => absurd hpos (by omega)⟩
    unfold offsetUB at hub ⊢
    rw [h0 h, hf, hv]
    exact hub
  · have hof := hp (by omega)
    have hub : offsetUB (m.adjustOffset) := by
      unfold offsetUB
      rw [hof, hf, hv]
      omega
    exact ⟨fun _ => by rw [hof]; omega, fun _ => hub,
      fun _ => ⟨by rw [hof]; omega, hub⟩⟩

theorem moveCursor_spec (m : Model) (d : Int) :
    (m.moveCursor d).filtered = m.filtered
    ∧ (m.moveCursor d).lines = m.lines
    ∧ (m.moveCursor d).visibleLines = m.visibleLines
    ∧ cursorOK (m.moveCursor d)
    ∧ (0 ≤ m.offset → 0 ≤ (m.moveCursor d).offset)
    ∧ (offsetUB m → offsetUB (m.moveCursor d)) := by
  rw [Model.moveCursor]
  set c1 := m.cursor + d with hc1
  set c2 := if c1 < 0 then 0 else c1 with hc2
  set c3 := if c2 ≥ ((m.filtered.length : Int)) then ((m.filtered.length : Int)) - 1 else c2
    with hc3
  set c4 := if c3 < 0 then 0 else c3 with hc4
  set m' : Model := { m with cursor := c4 } with hm'
  obtain ⟨hac, haf, hal, hav, ha0, hap⟩ := adjustOffset_spec m'
  have hfm' : m'.filtered = m.filtered := rfl
  have hvm' : m'.visibleLines = m.visibleLines := rfl
  have hom' : m'.offset = m.offset := rfl
  refine ⟨by rw [haf], by rw [hal], by rw [hav]; exact hvm', ?_, ?_, ?_⟩
  · constructor
    · intro hne
      rw [haf, hfm'] at hne
      have hlen : 1 ≤ m.filtered.length := by
        cases hcase : m.filtered with
        | nil => exact absurd hcase hne
        | cons a l => simp [hcase]
      rw [hac, haf]
      show 0 ≤ c4 ∧ c4 < ((m'.filtered.length : Int))
      rw [hfm']
      rw [hc4, hc3, hc2]
      have : (1 : Int) ≤ (m.filtered.length : Int) := by exact_mod_cast hlen
      by_cases h1 : c1 < 0 <;> by_cases h2 : (if c1 < 0 then 0 else c1) ≥ ((m.filtered.length : Int)) <;>
        simp only [h1, h2, if_true, if_false] <;> split <;> omega
    · intro hemp
      rw [haf, hfm'] at hemp
      rw [hac]
      show c4 = 0
      rw [hc4, hc3, hc2]
      rw [hemp]
      simp only [List.length_nil, Nat.cast_zero]
      by_cases h1 : c1 < 0 <;> simp only [h1, if_true, if_false] <;> split <;> omega
  · intro h
    have := (adjustOffset_inv m').1
    rw [hom'] at this
    exact this h
  · intro h
    have := (adjustOffset_inv m').2.1
    refine this ?_
    unfold offsetUB at h ⊢
    rw [hom', hfm', hvm']
    exact h

theorem updateFiltered_spec (m : Model) :
    (m.updateFiltered).lines = m.lines
    ∧ (m.updateFiltered).filtered = updateFilteredList m.lines m.filter
    ∧ (m.updateFiltered).visibleLines = m.visibleLines
    ∧ cursorOK (m.updateFiltered)
    ∧ (0 ≤ m.offset → 0 ≤ (m.updateFiltered).offset)
    ∧ (¬ 0 < m.visibleLines → (m.updateFiltered).offset = m.offset)
    ∧ (0 < m.visibleLines → offsetUB (m.updateFiltered)) := by
  have hf : (m.updateFiltered).filtered = updateFilteredList m.lines m.filter := rfl
  have hv : (m.updateFiltered).visibleLines = m.visibleLines := rfl
  have hcur : (m.updateFiltered).cursor
      = (if (if m.cursor ≥ ((updateFilteredList m.lines m.filter).length : Int)
              then ((updateFilteredList m.lines m.filter).length : Int) - 1 else m.cursor) < 0
          then 0
          else (if m.cursor ≥ ((updateFilteredList m.lines m.filter).length : Int)
              then ((updateFilteredList m.lines m.filter).length : Int) - 1
              else m.cursor)) := rfl
  have hoff : (m.updateFiltered).offset
      = (if m.visibleLines > 0 then
          (if m.offset
              > max (((updateFilteredList m.lines m.filter).length : Int) - m.visibleLines) 0
            then max (((updateFilteredList m.lines m.filter).length : Int) - m.visibleLines) 0
            else m.offset)
         else m.offset) := rfl
  refine ⟨rfl, hf, hv, ⟨?_, ?_⟩, ?_, ?_, ?_⟩
  · intro hne
    rw [hf] at hne
    have hlen : 0 < (updateFilteredList m.lines m.filter).length := List.length_pos.mpr hne
    have hlen' : (1 : Int) ≤ ((updateFilteredList m.lines m.filter).length : Int) := by
      exact_mod_cast hlen
    rw [hcur, hf]
    split_ifs <;> omega
  · intro hemp
    rw [hf] at hemp
    rw [hcur, hemp]
    simp only [List.length_nil, Nat.cast_zero]
    split_ifs <;> omega
  · intro h0
    rw [hoff]
    split_ifs <;> omega
  · intro hnp
    rw [hoff, if_neg hnp]
  · intro hp
    unfold offsetUB
    rw [hoff, hf, hv]
    split_ifs <;> omega

theorem cursorOK_of_eq {a b : Model} (hcur : b.cursor = a.cursor)
    (hfil : b.filtered = a.filtered) (h : cursorOK a) : cursorOK b := by
  unfold cursorOK at h ⊢
  rw [hcur, hfil]
  exact h

theorem offsetUB_of_eq {a b : Model} (hoff : b.offset = a.offset)
    (hfil : b.filtered = a.filtered) (hvis : b.visibleLines = a.visibleLines)
    (h : offsetUB a) : offsetUB b := by
  unfold offsetUB at h ⊢
  rw [hoff, hfil, hvis]
  exact h

theorem streamTickCount_inv (m : Model) (snap : StreamSnap)
    (hc : cursorOK m) (ho : 0 ≤ m.offset) :
    cursorOK (m.streamTickCount snap)
    ∧ 0 ≤ (m.streamTickCount snap).offset
    ∧ (offsetUB m → 0 < m.visibleLines → offsetUB (m.streamTickCount snap))
    ∧ (m.streamTickCount snap).visibleLines = m.visibleLines := by
  unfold Model.streamTickCount
  by_cases hcnt : snap.lines.length ≠ m.lastLineCount
  · rw [if_pos hcnt]
    obtain ⟨_, _, hvis, hcok, hpos0, _, hub⟩ :=
      updateFiltered_spec { m with lines := snap.lines, lastLineCount := snap.lines.length }
    by_cases hu : (!(Model.updateFiltered
        { m with lines := snap.lines, lastLineCount := snap.lines.length }).userScrolled)
          = true
    · rw [if_pos hu]
      by_cases hv : (Model.updateFiltered
          { m with lines := snap.lines, lastLineCount := snap.lines.length }).visibleLines
            > 0
      · rw [if_pos hv]
        set M := Model.updateFiltered
          { m with lines := snap.lines, lastLineCount := snap.lines.length } with hM
        refine ⟨⟨fun hne => ?_, fun hemp => ?_⟩, ?_, fun _ _ => ?_, ?_⟩
        · show (0 : Int) ≤ max ((M.filtered.length : Int) - 1) 0
            ∧ max ((M.filtered.length : Int) - 1) 0 < (M.filtered.length : Int)
          have hp : 0 < M.filtered.length := List.length_pos.mpr hne
          have : (1 : Int) ≤ (M.filtered.length : Int) := by exact_mod_cast hp
          constructor <;> omega
        · show max ((M.filtered.length : Int) - 1) 0 = 0
          rw [show (M.filtered : List Nat) = [] from hemp]
          simp
        · show (0 : Int) ≤ max ((M.filtered.length : Int) - M.visibleLines) 0
          omega
        · show max ((M.filtered.length : Int) - M.visibleLines) 0
            ≤ max ((M.filtered.length : Int) - M.visibleLines) 0
          exact le_refl _
        · show M.visibleLines = m.visibleLines
          exact hvis
      · rw [if_neg hv]
        refine ⟨hcok, hpos0 ho, fun _ hpm => ?_, hvis⟩
        rw [hvis] at hv
        exact absurd hpm hv
    · rw [if_neg hu]
      refine ⟨hcok, hpos0 ho, fun _ hpm => hub hpm, hvis⟩
  · rw [if_neg hcnt]
    exact ⟨hc, ho, fun hub _ => hub, rfl⟩

theorem streamTick_inv (m : Model) (snap : StreamSnap)
    (hc : cursorOK m) (ho : 0 ≤ m.offset) :
    cursorOK (m.streamTick snap)
    ∧ 0 ≤ (m.streamTick snap).offset
    ∧ (offsetUB m → 0 < m.visibleLines → offsetUB (m.streamTick snap)) := by
  obtain ⟨hc1, ho1, hub1, hv1⟩ := streamTickCount_inv m snap hc ho
  obtain ⟨slines, sdone, sexit, serr, sclc⟩ := snap
  unfold Model.streamTick
  by_cases hd : sdone = true
  · simp only [hd, if_true]
    cases serr with
    | some e =>
      split
      · next htr =>
        obtain ⟨_, _, hvis2, hcok2, hpos02, _, hub2⟩ := updateFiltered_spec _
        refine ⟨hcok2, hpos02 ho1, fun hub hpm => hub2 ?_⟩
        show 0 < (m.streamTickCount
          { lines := slines, done := sdone, exitCode := sexit,
            error := some e, currentLineCount := sclc }).visibleLines
        rw [hv1]
        exact hpm
      · next htr =>
        exact ⟨hc1, ho1, fun hub hpm => hub1 hub hpm⟩
    | none =>
      split
      · next htr =>
        obtain ⟨_, _, hvis2, hcok2, hpos02, _, hub2⟩ := updateFiltered_spec _
        refine ⟨hcok2, hpos02 ho1, fun hub hpm => hub2 ?_⟩
        show 0 < (m.streamTickCount
          { lines := slines, done := sdone, exitCode := sexit,
            error := none, currentLineCount := sclc }).visibleLines
        rw [hv1]
        exact hpm
      · next htr =>
        exact ⟨hc1, ho1, fun hub hpm => hub1 hub hpm⟩
  · simp only [hd]
    simp only [Bool.false_eq_true, if_false]
    exact ⟨hc1, ho1, hub1⟩

theorem handleKeyPress_inv (m : Model) (k : KeyMsg)
    (hc : cursorOK m) (ho : 0 ≤ m.offset) :
    cursorOK (m.handleKeyPress k)
    ∧ 0 ≤ (m.handleKeyPress k).offset
    ∧ (offsetUB m → 0 < m.visibleLines →
        0 < (Model.visibleLines { m with showPreview := !m.showPreview }) →
        offsetUB (m.handleKeyPress k)) := by
  unfold Model.handleKeyPress
  by_cases hh : m.showHelp = true
  · rw [if_pos hh]
    split
    · exact ⟨hc, ho, fun hub _ _ => hub⟩
    · exact ⟨hc, ho, fun hub _ _ => hub⟩
  · rw [if_neg hh]
    by_cases hfm : m.filterMode = true
    · rw [if_pos hfm]
      cases k with
      | esc =>
        obtain ⟨_, _, _, hcok, hpos0, _, hub⟩ :=
          updateFiltered_spec { m with filterMode := false, filter := "" }
        exact ⟨hcok, hpos0 ho, fun _ hv _ => hub hv⟩
      | enter => exact ⟨hc, ho, fun hub _ _ => hub⟩
      | backspace =>
        show cursorOK (if m.filter.length > 0 then
              Model.updateFiltered { m with filter := dropLastChar m.filter } else m)
          ∧ 0 ≤ (if m.filter.length > 0 then
              Model.updateFiltered { m with filter := dropLastChar m.filter } else m).offset
          ∧ (offsetUB m → 0 < m.visibleLines →
              0 < (Model.visibleLines { m with showPreview := !m.showPreview }) →
              offsetUB (if m.filter.length > 0 then
                Model.updateFiltered { m with filter := dropLastChar m.filter } else m))
        by_cases hbl : m.filter.length > 0
        · rw [if_pos hbl]
          obtain ⟨_, _, _, hcok, hpos0, _, hub⟩ :=
            updateFiltered_spec { m with filter := dropLastChar m.filter }
          exact ⟨hcok, hpos0 ho, fun _ hv _ => hub hv⟩
        · rw [if_neg hbl]
          exact ⟨hc, ho, fun hub _ _ => hub⟩
      | runes s =>
        obtain ⟨_, _, _, hcok, hpos0, _, hub⟩ :=
          updateFiltered_spec { m with filter := m.filter ++ s }
        exact ⟨hcok, hpos0 ho, fun _ hv _ => hub hv⟩
      | special n => exact ⟨hc, ho, fun hub _ _ => hub⟩
      | yank ok => exact ⟨hc, ho, fun hub _ _ => hub⟩
    · rw [if_neg hfm]
      by_cases h1 : k.str = "q" ∨ k.str = "ctrl+c"
      · rw [if_pos h1]
        exact ⟨hc, ho, fun hub _ _ => hub⟩
      rw [if_neg h1]
      by_cases h2 : k.str = "esc"
      · rw [if_pos h2]
        split
        · obtain ⟨_, _, _, hcok, hpos0, _, hub⟩ :=
            updateFiltered_spec { m with filter := "" }
          exact ⟨hcok, hpos0 ho, fun _ hv _ => hub hv⟩
        · exact ⟨hc, ho, fun hub _ _ => hub⟩
      rw [if_neg h2]
      by_cases h3 : k.str = "j" ∨ k.str = "down" ∨ k.str = "ctrl+n"
      · rw [if_pos h3]
        obtain ⟨_, _, _, hcok, h0, hub⟩ :=
          moveCursor_spec { m with userScrolled := true } 1
        exact ⟨hcok, h0 ho, fun hub' _ _ => hub hub'⟩
      rw [if_neg h3]
      by_cases h4 : k.str = "k" ∨ k.str = "up" ∨ k.str = "ctrl+p"
      · rw [if_pos h4]
        obtain ⟨_, _, _, hcok, h0, hub⟩ :=
          moveCursor_spec { m with userScrolled := true } (-1)
        exact ⟨hcok, h0 ho, fun hub' _ _ => hub hub'⟩
      rw [if_neg h4]
      by_cases h5 : k.str = "g" ∨ k.str = "home"
      · rw [if_pos h5]
        refine ⟨⟨fun hne => ⟨le_refl 0, ?_⟩, fun _ => rfl⟩, le_refl 0, fun _ _ _ => ?_⟩
        · have hp := List.length_pos.mpr hne
          show (0 : Int) < (m.filtered.length : Int)
          exact_mod_cast hp
        · show (0 : Int) ≤ max ((m.filtered.length : Int) - m.visibleLines) 0
          exact le_max_right _ 0
      rw [if_neg h5]
      by_cases h6 : k.str = "G" ∨ k.str = "end"
      · rw [if_pos h6]
        show cursorOK (if 0 < m.filtered.length then Model.adjustOffset { m with userScrolled := false, cursor := (m.filtered.length : Int) - 1 } else { m with userScrolled := false }) ∧ 0 ≤ (if 0 < m.filtered.length then Model.adjustOffset { m with userScrolled := false, cursor := (m.filtered.length : Int) - 1 } else { m with userScrolled := false }).offset ∧ (offsetUB m → 0 < m.visibleLines → 0 < (Model.visibleLines { m with showPreview := !m.showPreview }) → offsetUB (if 0 < m.filtered.length then Model.adjustOffset { m with userScrolled := false, cursor := (m.filtered.length : Int) - 1 } else { m with userScrolled := false }))
        by_cases hlen : 0 < m.filtered.length
        · rw [if_pos hlen]
          obtain ⟨hac, haf, _, hav, _, _⟩ := adjustOffset_spec
            { m with userScrolled := false, cursor := (m.filtered.length : Int) - 1 }
          refine ⟨⟨fun _ => ?_, fun hemp => ?_⟩, ?_, fun _ hv _ => ?_⟩
          · rw [hac, haf]
            show (0 : Int) ≤ (m.filtered.length : Int) - 1
                ∧ (m.filtered.length : Int) - 1 < (m.filtered.length : Int)
            omega
          · rw [haf] at hemp
            have h2 : 0 < m.filtered.length := hlen
            have hfe : Model.filtered { m with userScrolled := false, cursor := (m.filtered.length : Int) - 1 } = m.filtered := rfl
            rw [hfe] at hemp
            rw [hemp] at h2
            simp at h2
          · exact ((adjustOffset_inv { m with userScrolled := false, cursor := (m.filtered.length : Int) - 1 }).1) ho
          · exact ((adjustOffset_inv { m with userScrolled := false, cursor := (m.filtered.length : Int) - 1 }).2.2 hv).2
        · rw [if_neg hlen]
          exact ⟨hc, ho, fun hub _ _ => hub⟩
      rw [if_neg h6]
      by_cases h7 : k.str = "ctrl+d"
      · rw [if_pos h7]
        obtain ⟨_, _, _, hcok, h0, hub⟩ :=
          moveCursor_spec { m with userScrolled := true }
            (Int.tdiv (Model.visibleLines m) 2)
        exact ⟨hcok, h0 ho, fun hub' _ _ => hub hub'⟩
      rw [if_neg h7]
      by_cases h8 : k.str = "ctrl+u"
      · rw [if_pos h8]
        obtain ⟨_, _, _, hcok, h0, hub⟩ :=
          moveCursor_spec { m with userScrolled := true }
            (-(Int.tdiv (Model.visibleLines m) 2))
        exact ⟨hcok, h0 ho, fun hub' _ _ => hub hub'⟩
      rw [if_neg h8]
      by_cases h9 : k.str = "pgdown" ∨ k.str = "ctrl+f"
      · rw [if_pos h9]
        obtain ⟨_, _, _, hcok, h0, hub⟩ :=
          moveCursor_spec { m with userScrolled := true } (Model.visibleLines m)
        exact ⟨hcok, h0 ho, fun hub' _ _ => hub hub'⟩
      rw [if_neg h9]
      by_cases h10 : k.str = "pgup" ∨ k.str = "ctrl+b"
      · rw [if_pos h10]
        obtain ⟨_, _, _, hcok, h0, hub⟩ :=
          moveCursor_spec { m with userScrolled := true } (-(Model.visibleLines m))
        exact ⟨hcok, h0 ho, fun hub' _ _ => hub hub'⟩
      rw [if_neg h10]
      by_cases h11 : k.str = "p"
      · rw [if_pos h11]
        obtain ⟨hac, haf, _, hav, _, _⟩ := adjustOffset_spec
          { m with showPreview := !m.showPreview }
        refine ⟨cursorOK_of_eq hac haf hc, ((adjustOffset_inv _).1) ho,
          fun _ _ hvt => ?_⟩
        exact ((adjustOffset_inv _).2.2 hvt).2
      rw [if_neg h11]
      by_cases h12 : k.str = "r" ∨ k.str = "ctrl+r"
      · rw [if_pos h12]
        exact ⟨hc, ho, fun hub _ _ => hub⟩
      rw [if_neg h12]
      by_cases h13 : k.str = "/"
      · rw [if_pos h13]
        exact ⟨hc, ho, fun hub _ _ => hub⟩
      rw [if_neg h13]
      by_cases h14 : k.str = "?"
      · rw [if_pos h14]
        exact ⟨hc, ho, fun hub _ _ => hub⟩
      rw [if_neg h14]
      by_cases h15 : k.str = "y"
      · rw [if_pos h15]
        cases k with
        | yank copyOk =>
          split <;> (try split) <;> (try split) <;>
            exact ⟨hc, ho, fun hub _ _ => hub⟩
        | esc => exact ⟨hc, ho, fun hub _ _ => hub⟩
        | enter => exact ⟨hc, ho, fun hub _ _ => hub⟩
        | backspace => exact ⟨hc, ho, fun hub _ _ => hub⟩
        | runes s => exact ⟨hc, ho, fun hub _ _ => hub⟩
        | special n => exact ⟨hc, ho, fun hub _ _ => hub⟩
      rw [if_neg h15]
      exact ⟨hc, ho, fun hub _ _ => hub⟩

/-- C2 counterexample.  A reachable state satisfying the invariant (10
filtered lines, 5 visible rows, cursor 9, offset 5) stops satisfying it
after a resize to height 13: `visibleRows` becomes 8, so
`max(0, len − visibleRows) = 2 < 5 = offset`, because the resize handler
only stores the new size and recomputes nothing. -/
theorem claim_C2_counterexample :
    viewInv mC2 ∧ ¬ viewInv (mC2.update (.resize 80 13)) := by decide

/-- C2 as amended: the cursor bounds (`0 ≤ cursor < len(filtered)` when
non-empty, `cursor = 0` otherwise) and `0 ≤ offset` are preserved by every
event; the upper bound `offset ≤ max(0, len(filtered) − visibleRows)` is
preserved by every event except a terminal resize, provided the geometry
keeps a positive visible-row count with the preview both off and on.  A
resize changes `visibleRows` without touching `offset`, so it can break
the upper bound (see the counterexample). -/
theorem claim_C2_amended (m : Model) (e : Msg)
    (hc : cursorOK m) (ho : 0 ≤ m.offset) :
    cursorOK (m.update e)
    ∧ 0 ≤ (m.update e).offset
    ∧ (offsetUB m → (∀ w h, e ≠ .resize w h) → 0 < m.visibleLines →
        0 < (Model.visibleLines { m with showPreview := !m.showPreview }) →
        offsetUB (m.update e)) := by
  cases e with
  | key k =>
    obtain ⟨h1, h2, h3⟩ := handleKeyPress_inv m k hc ho
    exact ⟨h1, h2, fun hub _ hv hvt => h3 hub hv hvt⟩
  | resize w h =>
    exact ⟨hc, ho, fun _ hnr _ _ => absurd rfl (hnr w h)⟩
  | startStream => exact ⟨hc, ho, fun hub _ _ _ => hub⟩
  | result lines exitCode =>
    obtain ⟨_, _, _, hcok, hpos0, _, hub⟩ := updateFiltered_spec
      { m with lines := lines, exitCode := exitCode, loading := false, streaming := false }
    exact ⟨hcok, hpos0 ho, fun _ _ hv _ => hub hv⟩
  | streamTick snap =>
    cases snap with
    | none => exact ⟨hc, ho, fun hub _ _ _ => hub⟩
    | some s =>
      obtain ⟨h1, h2, h3⟩ := streamTick_inv m s hc ho
      exact ⟨h1, h2, fun hub _ hv _ => h3 hub hv⟩
  | timerTick =>
    show cursorOK (if m.config.RefreshInterval > 0 ∧ ¬m.streaming then m.startStreaming else m) ∧ 0 ≤ (if m.config.RefreshInterval > 0 ∧ ¬m.streaming then m.startStreaming else m).offset ∧ (offsetUB m → (∀ w h, (Msg.timerTick : Msg) ≠ .resize w h) → 0 < m.visibleLines → 0 < (Model.visibleLines { m with showPreview := !m.showPreview }) → offsetUB (if m.config.RefreshInterval > 0 ∧ ¬m.streaming then m.startStreaming else m))
    by_cases hcond : m.config.RefreshInterval > 0 ∧ ¬m.streaming
    · rw [if_pos hcond]
      exact ⟨hc, ho, fun hub _ _ _ => hub⟩
    · rw [if_neg hcond]
      exact ⟨hc, ho, fun hub _ _ _ => hub⟩
  | err e => exact ⟨hc, ho, fun hub _ _ _ => hub⟩
  | clearStatus => exact ⟨hc, ho, fun hub _ _ _ => hub⟩
  | spinnerTick =>
    show cursorOK (if m.loading ∨ m.streaming then { m with spinnerFrame := (m.spinnerFrame + 1) % 10 } else m) ∧ 0 ≤ (if m.loading ∨ m.streaming then { m with spinnerFrame := (m.spinnerFrame + 1) % 10 } else m).offset ∧ (offsetUB m → (∀ w h, (Msg.spinnerTick : Msg) ≠ .resize w h) → 0 < m.visibleLines → 0 < (Model.visibleLines { m with showPreview := !m.showPreview }) → offsetUB (if m.loading ∨ m.streaming then { m with spinnerFrame := (m.spinnerFrame + 1) % 10 } else m))
    by_cases hcond : m.loading ∨ m.streaming
    · rw [if_pos hcond]
      exact ⟨hc, ho, fun hub _ _ _ => hub⟩
    · rw [if_neg hcond]
      exact ⟨hc, ho, fun hub _ _ _ => hub⟩

/-- Witness for the amended C2: a `j` key press on a concrete state
preserves the full invariant. -/
theorem claim_C2_amended_witness :
    cursorOK (sampleModel.update (.key (.runes "j")))
    ∧ 0 ≤ (sampleModel.update (.key (.runes "j"))).offset
    ∧ offsetUB (sampleModel.update (.key (.runes "j"))) := by
  have h := claim_C2_amended sampleModel (.key (.runes "j")) (by decide) (by decide)
  exact ⟨h.1, h.2.1,
    h.2.2 (by decide) (fun w hh hcon => Msg.noConfusion hcon) (by decide) (by decide)⟩

/-- C9 counterexample.  On the concrete reachable state `mC9` (10
filtered lines, cursor 9, offset 5), a resize to height 11 leaves the
cursor unchanged but also leaves `offset = 5`; the claimed re-centering
would give `min (max (9 − 6/2) 0) (max (10 − 6) 0) = 4 ≠ 5`: the resize
handler stores the new size and recomputes nothing. -/
theorem claim_C9_counterexample :
    (mC9.update (.resize 80 11)).cursor = mC9.cursor
    ∧ Model.visibleLines (mC9.update (.resize 80 11)) = 6
    ∧ (mC9.update (.resize 80 11)).offset = 5
    ∧ min (max (mC9.cursor - Int.tdiv 6 2) 0) (max ((mC9.filtered.length : Int) - 6) 0)
        = 4
    ∧ (5 : Int) ≠ 4 := by decide

/-- C9 as amended: the preview-toggle key leaves the cursor unchanged and
(when the visible-row count is positive) recomputes the offset to
`cursor − visibleRows/2` clamped into `[0, max(0, len − visibleRows)]`,
keeping the old offset when the visible-row count is non-positive; a
terminal resize leaves both the cursor and the offset unchanged. -/
theorem claim_C9_amended (m : Model) (w h : Int)
    (hfm : m.filterMode = false) (hh : m.showHelp = false) :
    ((m.update (.key (.runes "p"))).cursor = m.cursor
      ∧ (0 < (m.update (.key (.runes "p"))).visibleLines →
          (m.update (.key (.runes "p"))).offset
            = min (max (m.cursor
                  - Int.tdiv ((m.update (.key (.runes "p"))).visibleLines) 2) 0)
                (max ((m.filtered.length : Int)
                  - (m.update (.key (.runes "p"))).visibleLines) 0))
      ∧ ((m.update (.key (.runes "p"))).visibleLines ≤ 0 →
          (m.update (.key (.runes "p"))).offset = m.offset))
    ∧ ((m.update (.resize w h)).cursor = m.cursor
      ∧ (m.update (.resize w h)).offset = m.offset) := by
  refine ⟨?_, rfl, rfl⟩
  have hred : m.update (.key (.runes "p"))
      = Model.adjustOffset { m with showPreview := !m.showPreview } := by
    show m.handleKeyPress (.runes "p")
      = Model.adjustOffset { m with showPreview := !m.showPreview }
    unfold Model.handleKeyPress
    rw [hh]
    simp only [Bool.false_eq_true, if_false]
    rw [hfm]
    simp only [Bool.false_eq_true, if_false]
    rw [if_neg (by decide), if_neg (by decide), if_neg (by decide), if_neg (by decide),
      if_neg (by decide), if_neg (by decide), if_neg (by decide), if_neg (by decide),
      if_neg (by decide), if_neg (by decide), if_pos (by decide)]
  rw [hred]
  obtain ⟨hac, haf, _, hav, ha0, hap⟩ :=
    adjustOffset_spec { m with showPreview := !m.showPreview }
  refine ⟨hac.trans rfl, fun hpos => ?_, fun hnp => ?_⟩
  · rw [hav] at hpos
    rw [hap hpos, hav]
  · rw [hav] at hnp
    rw [ha0 hnp]

/-- Witness for the amended C9 at a concrete model. -/
theorem claim_C9_amended_witness :
    (sampleModel.update (.key (.runes "p"))).cursor = sampleModel.cursor
    ∧ (sampleModel.update (.resize 80 11)).offset = sampleModel.offset := by
  have h := claim_C9_amended sampleModel 80 11 rfl rfl
  exact ⟨h.1.1, h.2.2⟩
